import Mathlib

/-!
# Blast: route table, certificate selection, request forwarding and CA store

A shallow embedding of `internal/proxy/proxy.go`, `internal/cert/cert.go`,
`internal/ca/ca.go`, `internal/config/config.go` and `internal/hosts/hosts.go`.

* Go maps are total functions into `Option` (absent key = `none`).
* Errors are their messages (`fmt.Errorf("ctx: %w", err)` is `"ctx: " ++ err`).
* The Go standard library (crypto, PEM, X.509, URL parsing, paths) is not part
  of the repository: its functions are the fields of `Lib`, and the theorems
  hold for every `Lib`.
* Reads of `rand.Reader` and of the clock are counted in `World`, which also
  holds the file system.
* Every operation on the server returns, next to its result and the new
  server, the sequence of synchronisation events it performs on `Server.mu`.
-/

namespace Blast

/-- Byte strings, Go `[]byte`. -/
abbrev Bytes := List Nat

/-! ## Values of the Go standard library -/

/-- Go `pkix.Name`, with the fields the repository sets. -/
structure PkixName where
  Organization : List String
  CommonName : String
  Country : List String
  Province : List String
  Locality : List String
  StreetAddress : List String
  PostalCode : List String
deriving DecidableEq, Repr

/-- Go `x509.Certificate`, with the fields the repository sets. Times are
seconds, `KeyUsage` is the bit mask, `ExtKeyUsage` the list of usage codes. -/
structure X509Certificate where
  SerialNumber : Nat
  Subject : PkixName
  DNSNames : List String
  NotBefore : Nat
  NotAfter : Nat
  KeyUsage : Nat
  ExtKeyUsage : List Nat
  BasicConstraintsValid : Bool
  IsCA : Bool
  MaxPathLen : Int
deriving DecidableEq, Repr

/-- Go `x509.KeyUsageDigitalSignature`. -/
def KeyUsageDigitalSignature : Nat := 1
/-- Go `x509.KeyUsageKeyEncipherment`. -/
def KeyUsageKeyEncipherment : Nat := 4
/-- Go `x509.KeyUsageCertSign`. -/
def KeyUsageCertSign : Nat := 32
/-- Go `x509.KeyUsageCRLSign`. -/
def KeyUsageCRLSign : Nat := 64
/-- Go `x509.ExtKeyUsageServerAuth`. -/
def ExtKeyUsageServerAuth : Nat := 1

/-- Go `rsa.PublicKey`. -/
structure RsaPublicKey where
  N : Nat
  E : Nat
deriving DecidableEq, Repr

/-- Go `rsa.PrivateKey`. -/
structure RsaPrivateKey where
  PublicKey : RsaPublicKey
  D : Nat
  Primes : List Nat
deriving DecidableEq, Repr

/-- Go `tls.Certificate`: the DER chain and the private key. -/
structure TlsCertificate where
  Certificate : List Bytes
  PrivateKey : RsaPrivateKey
deriving DecidableEq, Repr

/-- Go `pem.Block` (type and payload; `Type_` is the field `Type`). -/
structure PemBlock where
  Type_ : String
  Bytes : Bytes
deriving DecidableEq, Repr

/-- Go `url.URL`. -/
structure URL where
  Scheme : String
  Host : String
  Path : String
  RawQuery : String
deriving DecidableEq, Repr

/-- Go `http.Header`: canonical key to its values. -/
abbrev Header := String → List String

/-- Go `Header.Set` for a key that is already canonical: the key gets the
single value, every other key is untouched. -/
def Header.Set (h : Header) (key value : String) : Header :=
  fun k => if k = key then [value] else h k

/-- Go `http.Request`, with the fields `handleRequest` reads or writes, and
method and body. -/
structure Request where
  Method : String
  URL : URL
  Header : Header
  Host : String
  Body : Bytes

/-- Go `tls.ClientHelloInfo`, with the field the hook reads. -/
structure ClientHelloInfo where
  ServerName : String
deriving DecidableEq, Repr

/-- Go `http.StatusNotFound`. -/
def StatusNotFound : Nat := 404
/-- Go `http.StatusInternalServerError`. -/
def StatusInternalServerError : Nat := 500

/-- The functions of the Go standard library the repository calls. A function
that reads `rand.Reader` takes the number of reads made so far, `timeNow` the
number of clock reads made so far. -/
structure Lib where
  rsaGenerateKey : Nat → Nat → Except String RsaPrivateKey
  randInt : Nat → Nat → Except String Nat
  timeNow : Nat → Nat
  timeAddDate : Nat → Int → Int → Int → Nat
  x509CreateCertificate :
    Nat → X509Certificate → X509Certificate → RsaPublicKey → RsaPrivateKey → Except String Bytes
  x509ParseCertificate : Bytes → Except String X509Certificate
  x509MarshalPKCS1PrivateKey : RsaPrivateKey → Bytes
  x509ParsePKCS1PrivateKey : Bytes → Except String RsaPrivateKey
  pemEncodeToMemory : PemBlock → Bytes
  pemDecode : Bytes → Option PemBlock
  tlsX509KeyPair : Bytes → Bytes → Except String TlsCertificate
  urlParse : String → Except String URL
  userHomeDir : Except String String
  filepathJoin : List String → String

/-! ## The file system -/

/-- A node of the file system: a regular file with its content, or a
directory. -/
inductive Node where
  | file (data : Bytes)
  | dir
deriving DecidableEq, Repr

/-- The file system as the `os` package sees it: the node at each path, and
whether the process may read or write there. -/
structure FS where
  nodes : String → Option Node
  readable : String → Bool
  writable : String → Bool

/-- Go `os.Stat` succeeding: something exists at the path. -/
def FS.stat (fs : FS) (path : String) : Bool :=
  (fs.nodes path).isSome

/-- Go `os.ReadFile`: the content of a readable regular file. -/
def FS.ReadFile (fs : FS) (path : String) : Except String Bytes :=
  match fs.nodes path with
  | some (Node.file data) =>
    if fs.readable path then .ok data else .error ("open " ++ path ++ ": permission denied")
  | some Node.dir => .error ("read " ++ path ++ ": is a directory")
  | none => .error ("open " ++ path ++ ": no such file or directory")

/-- Go `os.WriteFile`: creates or truncates the file and writes the data. -/
def FS.WriteFile (fs : FS) (path : String) (data : Bytes) : Except String FS :=
  match fs.nodes path with
  | some Node.dir => .error ("open " ++ path ++ ": is a directory")
  | _ =>
    if fs.writable path then
      .ok { fs with nodes := fun p => if p = path then some (Node.file data) else fs.nodes p }
    else .error ("open " ++ path ++ ": permission denied")

/-- Go `os.MkdirAll`: nothing to do on an existing directory, an error on an
existing file, otherwise the directory is created. -/
def FS.MkdirAll (fs : FS) (path : String) : Except String FS :=
  match fs.nodes path with
  | some Node.dir => .ok fs
  | some (Node.file _) => .error ("mkdir " ++ path ++ ": not a directory")
  | none =>
    if fs.writable path then
      .ok { fs with nodes := fun p => if p = path then some Node.dir else fs.nodes p }
    else .error ("mkdir " ++ path ++ ": permission denied")

/-- What lies outside the server: the file system, the number of reads of
`rand.Reader` so far, the number of clock reads so far. -/
structure World where
  fs : FS
  randReads : Nat
  clockReads : Nat

/-- One more read of `rand.Reader`. -/
def World.drawn (w : World) : World :=
  { w with randReads := w.randReads + 1 }

/-- One more read of the clock. -/
def World.ticked (w : World) : World :=
  { w with clockReads := w.clockReads + 1 }

/-! ## internal/ca: the CA value -/

/-- Go `ca.CA`. -/
structure CA where
  Cert : X509Certificate
  Key : RsaPrivateKey
  CertPEM : Bytes
  KeyPEM : Bytes
  Path : String
deriving DecidableEq, Repr

/-- Go constant `caKeyFile`. -/
def caKeyFile : String := "blast-ca.key"
/-- Go constant `caCertFile`. -/
def caCertFile : String := "blast-ca.crt"

/-- Go `ca.getCADir`. -/
def getCADir (lib : Lib) : Except String String :=
  match lib.userHomeDir with
  | .error err => .error err
  | .ok homeDir => .ok (lib.filepathJoin [homeDir, ".config", "blast", "ca"])

/-- Go `ca.fileExists`: `os.Stat` returns no error. -/
def fileExists (w : World) (path : String) : Bool :=
  w.fs.stat path

/-- The certificate template of `generateCA`. -/
def caTemplate (lib : Lib) (w : World) (serialNumber : Nat) : X509Certificate :=
  { SerialNumber := serialNumber
    Subject :=
      { Organization := ["BlastProxy"], CommonName := "BlastProxy Root CA", Country := ["US"],
        Province := [""], Locality := [""], StreetAddress := [""], PostalCode := [""] }
    DNSNames := []
    NotBefore := lib.timeNow w.clockReads
    NotAfter := lib.timeAddDate (lib.timeNow (w.clockReads + 1)) 10 0 0
    KeyUsage := KeyUsageCertSign ||| KeyUsageCRLSign
    ExtKeyUsage := []
    BasicConstraintsValid := true
    IsCA := true
    MaxPathLen := 2 }

/-- Go `ca.generateCA`: directory, key, serial, self-signed certificate, PEM,
then the two files. -/
def generateCA (lib : Lib) (w : World) (caDir : String) : Except String CA × World :=
  match w.fs.MkdirAll caDir with
  | .error err => (.error ("failed to create CA directory: " ++ err), w)
  | .ok fs1 =>
    let w1 : World := { w with fs := fs1 }
    match lib.rsaGenerateKey w1.randReads 2048 with
    | .error err => (.error ("failed to generate private key: " ++ err), w1.drawn)
    | .ok privateKey =>
      match lib.randInt w1.drawn.randReads (2 ^ 128) with
      | .error err => (.error ("failed to generate serial number: " ++ err), w1.drawn.drawn)
      | .ok serialNumber =>
        let template := caTemplate lib w1.drawn.drawn serialNumber
        let w2 := w1.drawn.drawn.ticked.ticked
        match lib.x509CreateCertificate w2.randReads template template
            privateKey.PublicKey privateKey with
        | .error err => (.error ("failed to create certificate: " ++ err), w2.drawn)
        | .ok certDER =>
          match lib.x509ParseCertificate certDER with
          | .error err => (.error ("failed to parse certificate: " ++ err), w2.drawn)
          | .ok cert =>
            let certPEM := lib.pemEncodeToMemory { Type_ := "CERTIFICATE", Bytes := certDER }
            let keyPEM := lib.pemEncodeToMemory
              { Type_ := "RSA PRIVATE KEY", Bytes := lib.x509MarshalPKCS1PrivateKey privateKey }
            let certPath := lib.filepathJoin [caDir, caCertFile]
            let keyPath := lib.filepathJoin [caDir, caKeyFile]
            match w2.drawn.fs.WriteFile certPath certPEM with
            | .error err => (.error ("failed to write certificate: " ++ err), w2.drawn)
            | .ok fs2 =>
              match fs2.WriteFile keyPath keyPEM with
              | .error err =>
                (.error ("failed to write private key: " ++ err), { w2.drawn with fs := fs2 })
              | .ok fs3 =>
                (.ok { Cert := cert, Key := privateKey, CertPEM := certPEM, KeyPEM := keyPEM,
                       Path := caDir },
                 { w2.drawn with fs := fs3 })

/-- Go `ca.loadCA`: read, PEM-decode and parse the certificate, then the key. -/
def loadCA (lib : Lib) (w : World) (caDir : String) : Except String CA × World :=
  let certPath := lib.filepathJoin [caDir, caCertFile]
  let keyPath := lib.filepathJoin [caDir, caKeyFile]
  match w.fs.ReadFile certPath with
  | .error err => (.error ("failed to read certificate: " ++ err), w)
  | .ok certPEM =>
    match lib.pemDecode certPEM with
    | none => (.error "failed to decode certificate PEM", w)
    | some block =>
      match lib.x509ParseCertificate block.Bytes with
      | .error err => (.error ("failed to parse certificate: " ++ err), w)
      | .ok cert =>
        match w.fs.ReadFile keyPath with
        | .error err => (.error ("failed to read private key: " ++ err), w)
        | .ok keyPEM =>
          match lib.pemDecode keyPEM with
          | none => (.error "failed to decode private key PEM", w)
          | some keyBlock =>
            match lib.x509ParsePKCS1PrivateKey keyBlock.Bytes with
            | .error err => (.error ("failed to parse private key: " ++ err), w)
            | .ok privateKey =>
              (.ok { Cert := cert, Key := privateKey, CertPEM := certPEM, KeyPEM := keyPEM,
                     Path := caDir }, w)

/-- Go `ca.EnsureCA`: load when both files exist, generate otherwise. -/
def EnsureCA (lib : Lib) (w : World) : Except String CA × World :=
  match getCADir lib with
  | .error err => (.error err, w)
  | .ok caDir =>
    let certPath := lib.filepathJoin [caDir, caCertFile]
    let keyPath := lib.filepathJoin [caDir, caKeyFile]
    if fileExists w certPath && fileExists w keyPath then
      loadCA lib w caDir
    else
      generateCA lib w caDir

/-- Go `CA.GetCertPath`. -/
def CA.GetCertPath (lib : Lib) (ca : CA) : String :=
  lib.filepathJoin [ca.Path, caCertFile]

/-- The content PEM-decodes and its payload parses as a certificate (the two
checks `loadCA` makes on the certificate file). -/
def certDecodes (lib : Lib) (data : Bytes) : Bool :=
  match lib.pemDecode data with
  | none => false
  | some block =>
    match lib.x509ParseCertificate block.Bytes with
    | .error _ => false
    | .ok _ => true

/-- The content PEM-decodes and its payload parses as a PKCS#1 key (the two
checks `loadCA` makes on the key file). -/
def keyDecodes (lib : Lib) (data : Bytes) : Bool :=
  match lib.pemDecode data with
  | none => false
  | some block =>
    match lib.x509ParsePKCS1PrivateKey block.Bytes with
    | .error _ => false
    | .ok _ => true

/-- Successive calls of `EnsureCA`, `n` of them: the results in call order and
the world after the last. -/
def EnsureCA_times (lib : Lib) : Nat → World → List (Except String CA) × World
  | 0, w => ([], w)
  | n + 1, w =>
    let first := EnsureCA lib w
    let others := EnsureCA_times lib n first.2
    (first.1 :: others.1, others.2)

/-! ## internal/cert -/

/-- The certificate template of `GenerateCertificate`. -/
def leafTemplate (lib : Lib) (w : World) (serialNumber : Nat) (domain : String) :
    X509Certificate :=
  { SerialNumber := serialNumber
    Subject :=
      { Organization := ["BlastProxy"], CommonName := domain, Country := [], Province := [],
        Locality := [], StreetAddress := [], PostalCode := [] }
    DNSNames := [domain]
    NotBefore := lib.timeNow w.clockReads
    NotAfter := lib.timeAddDate (lib.timeNow (w.clockReads + 1)) 1 0 0
    KeyUsage := KeyUsageKeyEncipherment ||| KeyUsageDigitalSignature
    ExtKeyUsage := [ExtKeyUsageServerAuth]
    BasicConstraintsValid := false
    IsCA := false
    MaxPathLen := 0 }

/-- Go `cert.GenerateCertificate`: a fresh key, a random serial, the template,
the signature by the CA, the PEM chain leaf ++ root, the key pair. -/
def GenerateCertificate (lib : Lib) (w : World) (rootCA : CA) (domain : String) :
    Except String TlsCertificate × World :=
  match lib.rsaGenerateKey w.randReads 2048 with
  | .error err => (.error ("failed to generate private key: " ++ err), w.drawn)
  | .ok privateKey =>
    match lib.randInt w.drawn.randReads (2 ^ 128) with
    | .error err => (.error ("failed to generate serial number: " ++ err), w.drawn.drawn)
    | .ok serialNumber =>
      let template := leafTemplate lib w.drawn.drawn serialNumber domain
      let w3 := w.drawn.drawn.ticked.ticked
      match lib.x509CreateCertificate w3.randReads template rootCA.Cert
          privateKey.PublicKey rootCA.Key with
      | .error err => (.error ("failed to create certificate: " ++ err), w3.drawn)
      | .ok certDER =>
        let certPEM := lib.pemEncodeToMemory { Type_ := "CERTIFICATE", Bytes := certDER }
        let keyPEM := lib.pemEncodeToMemory
          { Type_ := "RSA PRIVATE KEY", Bytes := lib.x509MarshalPKCS1PrivateKey privateKey }
        let fullChainPEM := certPEM ++ rootCA.CertPEM
        match lib.tlsX509KeyPair fullChainPEM keyPEM with
        | .error err => (.error ("failed to load certificate: " ++ err), w3.drawn)
        | .ok tlsCert => (.ok tlsCert, w3.drawn)

/-! ## internal/proxy -/

/-- Go `proxy.Server`: the root CA (the non-nil `*ca.CA` that `NewServer` is
given) and the two maps. The mutex `mu` is represented by the events of
`Run.trace`; the `server` field (the listener of `Start`) is not touched by
any operation below. -/
structure Server where
  rootCA : CA
  routes : String → Option String
  certs : String → Option TlsCertificate

/-- What an operation does to `Server.mu` and to the maps, in program order. -/
inductive Event where
  | lock
  | unlock
  | rlock
  | runlock
  | issue (domain : String)
  | readMap
  | writeMap
  | serveHTTP
deriving DecidableEq, Repr

/-- The outcome of one operation: its return value, the server afterwards, the
events it performed. -/
structure Run (α : Type) where
  ret : α
  server : Server
  trace : List Event

/-- Go `proxy.NewServer`. -/
def NewServer (rootCA : CA) : Server :=
  { rootCA := rootCA, routes := fun _ => none, certs := fun _ => none }

/-- Go `Server.AddRoute`. `s.mu.Lock()` and the deferred `s.mu.Unlock()`
bracket the whole body; `ret` is `none` for a nil error. -/
def AddRoute (lib : Lib) (w : World) (s : Server) (domain localPort : String) :
    Run (Option String) × World :=
  match GenerateCertificate lib w s.rootCA domain with
  | (.error err, w1) =>
    ({ ret := some ("failed to generate certificate: " ++ err)
       server := s
       trace := [Event.lock, Event.issue domain, Event.unlock] }, w1)
  | (.ok tlsCert, w1) =>
    ({ ret := none
       server :=
        { s with
          routes := fun d => if d = domain then some ("localhost:" ++ localPort) else s.routes d
          certs := fun d => if d = domain then some tlsCert else s.certs d }
       trace := [Event.lock, Event.issue domain, Event.writeMap, Event.writeMap, Event.unlock] },
     w1)

/-- Go `Server.RemoveRoute`. -/
def RemoveRoute (s : Server) (domain : String) : Run Unit :=
  { ret := ()
    server :=
      { s with
        routes := fun d => if d = domain then none else s.routes d
        certs := fun d => if d = domain then none else s.certs d }
    trace := [Event.lock, Event.writeMap, Event.writeMap, Event.unlock] }

/-- Go `Server.ClearRoutes`. -/
def ClearRoutes (s : Server) : Run Unit :=
  { ret := ()
    server := { s with routes := fun _ => none, certs := fun _ => none }
    trace := [Event.lock, Event.writeMap, Event.writeMap, Event.unlock] }

/-- The `GetCertificate` hook that `Server.Start` installs in the TLS
configuration. -/
def GetCertificate (s : Server) (hello : ClientHelloInfo) : Run (Except String TlsCertificate) :=
  match s.certs hello.ServerName with
  | none =>
    { ret := .error ("no certificate for " ++ hello.ServerName)
      server := s
      trace := [Event.rlock, Event.readMap, Event.runlock] }
  | some cert =>
    { ret := .ok cert
      server := s
      trace := [Event.rlock, Event.readMap, Event.runlock] }

/-- What `handleRequest` does with the response writer: an `http.Error` with
body and status, or `proxy.ServeHTTP(w, r)` on the reverse proxy made by
`httputil.NewSingleHostReverseProxy(targetURL)`. -/
inductive Handled where
  | httpError (body : String) (code : Nat)
  | serveHTTP (targetURL : URL) (r : Request)

/-- Go `Server.handleRequest`. -/
def handleRequest (lib : Lib) (s : Server) (r : Request) : Run Handled :=
  match s.routes r.Host with
  | none =>
    { ret := Handled.httpError ("No route configured for " ++ r.Host) StatusNotFound
      server := s
      trace := [Event.rlock, Event.readMap, Event.runlock] }
  | some target =>
    match lib.urlParse ("http://" ++ target) with
    | .error _ =>
      { ret := Handled.httpError "Invalid target URL" StatusInternalServerError
        server := s
        trace := [Event.rlock, Event.readMap, Event.runlock] }
    | .ok targetURL =>
      let r1 := { r with URL := { r.URL with Host := targetURL.Host } }
      let r2 := { r1 with URL := { r1.URL with Scheme := targetURL.Scheme } }
      let r3 := { r2 with Header := r2.Header.Set "X-Forwarded-Host" r2.Host }
      let r4 := { r3 with Header := r3.Header.Set "X-Forwarded-Proto" "https" }
      { ret := Handled.serveHTTP targetURL r4
        server := s
        trace := [Event.rlock, Event.readMap, Event.runlock, Event.serveHTTP] }

/-! ## internal/config -/

/-- Go `config.ProxyMapping`. -/
structure ProxyMapping where
  DomainPrefix : String
  LocalPort : String
  FullDomain : String
deriving DecidableEq, Repr

/-- The value `Config.AddProxy` stores under the key `pfx`. -/
def AddProxy_mapping (pfx port : String) : ProxyMapping :=
  { DomainPrefix := pfx, LocalPort := port, FullDomain := pfx ++ ".blast" }

/-! ## Lock discipline of a trace -/

/-- Each event of a trace paired with whether the write lock of `Server.mu` is
held by the operation at the moment the event happens; `held` is the state
before the first event. -/
def lockHeldAt : Bool → List Event → List (Event × Bool)
  | _, [] => []
  | held, Event.lock :: rest => (Event.lock, held) :: lockHeldAt true rest
  | held, Event.unlock :: rest => (Event.unlock, held) :: lockHeldAt false rest
  | held, e :: rest => (e, held) :: lockHeldAt held rest

/-! ## The server states an administrator can reach -/

/-- The server states reachable from `NewServer` by `AddRoute` (whatever its
outcome), `RemoveRoute` and `ClearRoutes`. -/
inductive Reachable : Server → Prop where
  | newServer (rootCA : CA) : Reachable (NewServer rootCA)
  | addRoute (lib : Lib) (w : World) (s : Server) (domain localPort : String) :
      Reachable s → Reachable (AddRoute lib w s domain localPort).1.server
  | removeRoute (s : Server) (domain : String) :
      Reachable s → Reachable (RemoveRoute s domain).server
  | clearRoutes (s : Server) : Reachable s → Reachable (ClearRoutes s).server

/-! ## One concrete standard library, to evaluate the definitions -/

/-- A character of a plain host name. -/
def hostChar (c : Char) : Bool :=
  c.isAlphanum || c = '.' || c = '-'

/-- Agrees with `net/url.Parse` on `http://host:port` with a plain host name:
accepted exactly when the port is made of decimal digits (Go
`validOptionalPort`). Every other string is refused here. -/
def sampleUrlParse (rawURL : String) : Except String URL :=
  match rawURL.data with
  | 'h' :: 't' :: 't' :: 'p' :: ':' :: '/' :: '/' :: rest =>
    let host := rest.takeWhile (fun c => c ≠ ':')
    let port := (rest.dropWhile (fun c => c ≠ ':')).drop 1
    if host.all hostChar && rest.contains ':' && port.all Char.isDigit then
      .ok { Scheme := "http", Host := String.mk rest, Path := "", RawQuery := "" }
    else .error ("parse " ++ rawURL ++ ": invalid port after host")
  | _ => .error ("parse " ++ rawURL ++ ": outside the modelled fragment")

/-- A toy PEM encoding: one tag for the block type, then the payload. -/
def samplePemEncode (b : PemBlock) : Bytes :=
  (if b.Type_ = "CERTIFICATE" then 1 else 2) :: b.Bytes

/-- Decoding of the toy PEM encoding. -/
def samplePemDecode : Bytes → Option PemBlock
  | 1 :: rest => some { Type_ := "CERTIFICATE", Bytes := rest }
  | 2 :: rest => some { Type_ := "RSA PRIVATE KEY", Bytes := rest }
  | _ => none

/-- A toy PKCS#1 parser. -/
def sampleParseKey : Bytes → Except String RsaPrivateKey
  | n :: e :: d :: primes => .ok { PublicKey := { N := n, E := e }, D := d, Primes := primes }
  | _ => .error "x509: failed to parse private key"

/-- A toy DER parser. -/
def sampleParseCertificate : Bytes → Except String X509Certificate
  | [serial, notBefore, notAfter, isCA] =>
    .ok { SerialNumber := serial
          Subject :=
            { Organization := ["BlastProxy"], CommonName := "", Country := [], Province := [],
              Locality := [], StreetAddress := [], PostalCode := [] }
          DNSNames := []
          NotBefore := notBefore
          NotAfter := notAfter
          KeyUsage := 0
          ExtKeyUsage := []
          BasicConstraintsValid := isCA = 1
          IsCA := isCA = 1
          MaxPathLen := 0 }
  | _ => .error "x509: malformed certificate"

/-- A concrete standard library in which every call succeeds on well-formed
input. -/
def sampleLib : Lib :=
  { rsaGenerateKey := fun reads _ =>
      .ok { PublicKey := { N := 1000 + reads, E := 65537 }, D := 7 + reads, Primes := [] }
    randInt := fun reads max => .ok ((12345 + reads) % max)
    timeNow := fun reads => 1700000000 + reads
    timeAddDate := fun t years months days =>
      t + (years.toNat * 365 + months.toNat * 30 + days.toNat) * 86400
    x509CreateCertificate := fun _ template _ _ _ =>
      .ok [template.SerialNumber, template.NotBefore, template.NotAfter,
           if template.IsCA then 1 else 0]
    x509ParseCertificate := sampleParseCertificate
    x509MarshalPKCS1PrivateKey := fun k => k.PublicKey.N :: k.PublicKey.E :: k.D :: k.Primes
    x509ParsePKCS1PrivateKey := sampleParseKey
    pemEncodeToMemory := samplePemEncode
    pemDecode := samplePemDecode
    tlsX509KeyPair := fun chain key =>
      match samplePemDecode key with
      | none => .error "tls: failed to find any PEM data in key input"
      | some block =>
        match sampleParseKey block.Bytes with
        | .error err => .error err
        | .ok k => .ok { Certificate := [chain], PrivateKey := k }
    urlParse := sampleUrlParse
    userHomeDir := .ok "/home/dev"
    filepathJoin := fun parts => "/".intercalate parts }

/-- The sample library with an entropy source that fails. -/
def failingLib : Lib :=
  { sampleLib with rsaGenerateKey := fun _ _ => .error "entropy source unavailable" }

/-- An empty file system on which everything is permitted. -/
def sampleFS : FS :=
  { nodes := fun _ => none, readable := fun _ => true, writable := fun _ => true }

/-- A world with the empty file system and no reads made yet. -/
def sampleWorld : World :=
  { fs := sampleFS, randReads := 0, clockReads := 0 }

/-- A root CA value for the examples. -/
def sampleCA : CA :=
  { Cert := caTemplate sampleLib sampleWorld 1
    Key := { PublicKey := { N := 999, E := 65537 }, D := 5, Primes := [] }
    CertPEM := [1, 1, 1700000000, 2015360001, 1]
    KeyPEM := [2, 999, 65537, 5]
    Path := "/home/dev/.config/blast/ca" }

/-- A request for the examples. -/
def sampleRequest (host : String) : Request :=
  { Method := "GET"
    URL := { Scheme := "", Host := "", Path := "/v1/items", RawQuery := "page=2" }
    Header := fun _ => []
    Host := host
    Body := [] }

/-- The server after `AddRoute(domain, localPort)` on a fresh server, with the
sample library. -/
def sampleServer (domain localPort : String) : Server :=
  (AddRoute sampleLib sampleWorld (NewServer sampleCA) domain localPort).1.server

/-- A world whose CA store holds a certificate file that does not PEM-decode
and a well-formed key file. -/
def corruptStore : World :=
  { fs :=
      { nodes := fun p =>
          if p = "/home/dev/.config/blast/ca/blast-ca.crt" then some (Node.file [9, 9])
          else if p = "/home/dev/.config/blast/ca/blast-ca.key" then
            some (Node.file [2, 1000, 65537, 7])
          else none
        readable := fun _ => true
        writable := fun _ => true }
    randReads := 0
    clockReads := 0 }

/-- The CA that `EnsureCA` generates in the sample world. -/
def generatedCA : CA :=
  { Cert :=
      { SerialNumber := 12346
        Subject :=
          { Organization := ["BlastProxy"], CommonName := "", Country := [], Province := [],
            Locality := [], StreetAddress := [], PostalCode := [] }
        DNSNames := []
        NotBefore := 1700000000
        NotAfter := 2015360001
        KeyUsage := 0
        ExtKeyUsage := []
        BasicConstraintsValid := true
        IsCA := true
        MaxPathLen := 0 }
    Key := { PublicKey := { N := 1000, E := 65537 }, D := 7, Primes := [] }
    CertPEM := [1, 12346, 1700000000, 2015360001, 1]
    KeyPEM := [2, 1000, 65537, 7]
    Path := "/home/dev/.config/blast/ca" }

/-! ## internal/hosts

`hosts.go` searches and cuts strings byte by byte, so here a Go string or byte
slice is the list of its bytes. -/

/-- The bytes of a string literal (its UTF-8 encoding). -/
def goBytes (s : String) : Bytes :=
  s.data.flatMap (fun c => (String.utf8EncodeChar c).map UInt8.toNat)

/-- Go constant `marker`. -/
def marker : Bytes := goBytes "# blast-proxy"

/-- Go `hosts.GetHostsPath`; `goos` is `runtime.GOOS`. -/
def GetHostsPath (goos : String) : String :=
  if goos = "windows" then "C:\\Windows\\System32\\drivers\\etc\\hosts" else "/etc/hosts"

/-- Go `strings.Contains`: `sub` occurs in `s` as a run of consecutive bytes. -/
def Contains : Bytes → Bytes → Bool
  | [], sub => sub.isEmpty
  | b :: s, sub => sub.isPrefixOf (b :: s) || Contains s sub

/-- Go `bufio.MaxScanTokenSize`. -/
def MaxScanTokenSize : Nat := 64 * 1024

/-- Go `bufio.dropCR`: one trailing carriage return is dropped. -/
def dropCR (data : Bytes) : Bytes :=
  if data.getLast? = some 13 then data.dropLast else data

/-- The content cut at its line feeds (byte 10), the line feeds dropped: every
terminated line, and the unterminated rest when it is not empty. -/
def rawLines : Bytes → List Bytes
  | [] => []
  | b :: rest =>
    if b = 10 then [] :: rawLines rest
    else
      match rawLines rest with
      | [] => [[b]]
      | l :: ls => (b :: l) :: ls

/-- The successive values of `scanner.Text()` for a `bufio.Scanner` over the
content (split function `ScanLines`, default buffer): the lines in order, each
without one trailing carriage return; the scan ends at the first line that
does not fit the buffer (`ErrTooLong`, which `hosts.go` does not look at). -/
def scanLines (content : Bytes) : List Bytes :=
  ((rawLines content).takeWhile (fun l => decide (l.length < MaxScanTokenSize))).map dropCR

/-- The test both loops of `hosts.go` make on a line:
`strings.Contains(line, domain) && strings.Contains(line, marker)`. -/
def matchesEntry (domain line : Bytes) : Bool :=
  Contains line domain && Contains line marker

/-- The line `AddEntry` formats for a domain, without its line feed:
`127.0.0.1 <domain> # blast-proxy`. -/
def entryLine (domain : Bytes) : Bytes :=
  goBytes "127.0.0.1 " ++ domain ++ goBytes " " ++ marker

/-- Go `hosts.AddEntry`; the result is `none` for a nil error. -/
def AddEntry (goos : String) (w : World) (domain : Bytes) : Option String × World :=
  let hostsPath := GetHostsPath goos
  match w.fs.ReadFile hostsPath with
  | .error err => (some ("failed to read hosts file: " ++ err), w)
  | .ok content =>
    if (scanLines content).any (matchesEntry domain) then (none, w)
    else
      let entry := entryLine domain ++ [10]
      let newContent := content ++ entry
      match w.fs.WriteFile hostsPath newContent with
      | .error err => (some ("failed to write hosts file: " ++ err), w)
      | .ok fs1 => (none, { w with fs := fs1 })

/-- Go `hosts.RemoveEntry`; the result is `none` for a nil error. `newLines`
collects the scanned lines the loop does not skip, `found` records whether it
skipped one. -/
def RemoveEntry (goos : String) (w : World) (domain : Bytes) : Option String × World :=
  let hostsPath := GetHostsPath goos
  match w.fs.ReadFile hostsPath with
  | .error err => (some ("failed to read hosts file: " ++ err), w)
  | .ok content =>
    let newLines := (scanLines content).filter (fun line => !matchesEntry domain line)
    let found := (scanLines content).any (matchesEntry domain)
    if !found then (none, w)
    else
      let newContent := [10].intercalate newLines ++ [10]
      match w.fs.WriteFile hostsPath newContent with
      | .error err => (some ("failed to write hosts file: " ++ err), w)
      | .ok fs1 => (none, { w with fs := fs1 })

/-- A world whose hosts file (at `/etc/hosts`) has the given content, readable
and writable. -/
def hostsWorld (content : Bytes) : World :=
  { fs :=
      { nodes := fun p => if p = "/etc/hosts" then some (Node.file content) else none
        readable := fun _ => true
        writable := fun _ => true }
    randReads := 0
    clockReads := 0 }

/-- The content of the hosts file at `/etc/hosts`, when it reads. -/
def hostsContent (w : World) : Except String Bytes :=
  w.fs.ReadFile (GetHostsPath "linux")

/-! ## Theorems -/

/-- C1: on a server freshly made by `NewServer` the domain has neither a
backend nor a credential; and whenever `AddRoute` returns no error, the server
afterwards maps the domain to `"localhost:" ++ localPort` and to exactly the
credential `GenerateCertificate` returned in that call. -/
theorem AddRoute_registers (lib : Lib) (w : World) (rootCA : CA) (s : Server)
    (domain localPort : String) :
    ((NewServer rootCA).routes domain = none ∧ (NewServer rootCA).certs domain = none) ∧
    ((AddRoute lib w s domain localPort).1.ret = none →
      ∃ tlsCert, (GenerateCertificate lib w s.rootCA domain).1 = .ok tlsCert ∧
        (AddRoute lib w s domain localPort).1.server.routes domain
          = some ("localhost:" ++ localPort) ∧
        (AddRoute lib w s domain localPort).1.server.certs domain = some tlsCert) := by
  refine ⟨⟨rfl, rfl⟩, ?_⟩
  intro h
  unfold AddRoute at h ⊢
  rcases hg : GenerateCertificate lib w s.rootCA domain with ⟨res, w1⟩
  rw [hg] at h
  cases res with
  | error err => simp at h
  | ok tlsCert => exact ⟨tlsCert, rfl, by simp, by simp⟩

/-- C1, at a concrete input: adding `api.blast` on port 3000 to a fresh server
succeeds and registers the backend and the issued credential. -/
theorem AddRoute_registers_witness :
    (AddRoute sampleLib sampleWorld (NewServer sampleCA) "api.blast" "3000").1.ret = none ∧
    ∃ tlsCert, (GenerateCertificate sampleLib sampleWorld (NewServer sampleCA).rootCA
        "api.blast").1 = .ok tlsCert ∧
      (AddRoute sampleLib sampleWorld (NewServer sampleCA) "api.blast" "3000").1.server.routes
        "api.blast" = some ("localhost:" ++ "3000") ∧
      (AddRoute sampleLib sampleWorld (NewServer sampleCA) "api.blast" "3000").1.server.certs
        "api.blast" = some tlsCert :=
  ⟨rfl, (AddRoute_registers sampleLib sampleWorld sampleCA (NewServer sampleCA)
    "api.blast" "3000").2 rfl⟩

/-- C2: when issuance fails inside `AddRoute`, the call returns an error and
the server afterwards is the server before: every domain keeps the backend and
the credential it had, and an absent domain stays absent. -/
theorem AddRoute_issuance_error (lib : Lib) (w : World) (s : Server)
    (domain localPort err : String)
    (h : (GenerateCertificate lib w s.rootCA domain).1 = .error err) :
    (AddRoute lib w s domain localPort).1.ret
        = some ("failed to generate certificate: " ++ err) ∧
    (AddRoute lib w s domain localPort).1.server = s ∧
    (∀ d, (AddRoute lib w s domain localPort).1.server.routes d = s.routes d ∧
          (AddRoute lib w s domain localPort).1.server.certs d = s.certs d) := by
  unfold AddRoute
  rcases hg : GenerateCertificate lib w s.rootCA domain with ⟨res, w1⟩
  rw [hg] at h
  cases res with
  | ok tlsCert => simp at h
  | error e =>
    simp only [Except.error.injEq] at h
    subst h
    exact ⟨rfl, rfl, fun _ => ⟨rfl, rfl⟩⟩

/-- C2, at a concrete input: with a failing entropy source, re-adding a
registered domain on another port returns the error and changes nothing. -/
theorem AddRoute_issuance_error_witness :
    (GenerateCertificate failingLib sampleWorld
      (AddRoute sampleLib sampleWorld (NewServer sampleCA) "api.blast" "3000").1.server.rootCA
      "api.blast").1 = .error "failed to generate private key: entropy source unavailable" ∧
    (AddRoute failingLib sampleWorld
      (AddRoute sampleLib sampleWorld (NewServer sampleCA) "api.blast" "3000").1.server
      "api.blast" "4000").1.server.routes "api.blast" = some "localhost:3000" :=
  ⟨rfl,
   ((AddRoute_issuance_error failingLib sampleWorld
      (AddRoute sampleLib sampleWorld (NewServer sampleCA) "api.blast" "3000").1.server
      "api.blast" "4000" "failed to generate private key: entropy source unavailable"
      rfl).2.2 "api.blast").1.trans rfl⟩

/-- In a reachable state a domain has a backend exactly when it has a
credential. -/
theorem Reachable.backend_iff_credential (s : Server) (h : Reachable s) (d : String) :
    (s.routes d).isSome = (s.certs d).isSome := by
  induction h with
  | newServer rootCA => rfl
  | addRoute lib w s domain localPort _ ih =>
    unfold AddRoute
    rcases GenerateCertificate lib w s.rootCA domain with ⟨res, w1⟩
    cases res with
    | error err => exact ih
    | ok tlsCert =>
      by_cases hdd : d = domain
      · simp [hdd]
      · simpa [hdd] using ih
  | removeRoute s domain _ ih =>
    simp only [RemoveRoute]
    by_cases hdd : d = domain
    · simp [hdd]
    · simpa [hdd] using ih
  | clearRoutes s _ ih => rfl

/-- C3: in every reachable server state the domains with a backend are the
domains with a credential. -/
theorem Reachable_routes_certs (s : Server) (h : Reachable s) :
    {d | (s.routes d).isSome} = {d | (s.certs d).isSome} := by
  ext d
  simp only [Set.mem_setOf_eq]
  rw [Reachable.backend_iff_credential s h d]

/-- C3, at a concrete state: after an add, a failed add and a remove. -/
theorem Reachable_routes_certs_witness :
    Reachable (RemoveRoute (AddRoute failingLib sampleWorld
      (AddRoute sampleLib sampleWorld (NewServer sampleCA) "api.blast" "3000").1.server
      "web.blast" "8080").1.server "other.blast").server ∧
    {d | ((RemoveRoute (AddRoute failingLib sampleWorld
      (AddRoute sampleLib sampleWorld (NewServer sampleCA) "api.blast" "3000").1.server
      "web.blast" "8080").1.server "other.blast").server.routes d).isSome} =
    {d | ((RemoveRoute (AddRoute failingLib sampleWorld
      (AddRoute sampleLib sampleWorld (NewServer sampleCA) "api.blast" "3000").1.server
      "web.blast" "8080").1.server "other.blast").server.certs d).isSome} :=
  ⟨Reachable.removeRoute _ _ (Reachable.addRoute _ _ _ _ _
      (Reachable.addRoute _ _ _ _ _ (Reachable.newServer sampleCA))),
   Reachable_routes_certs _ (Reachable.removeRoute _ _ (Reachable.addRoute _ _ _ _ _
      (Reachable.addRoute _ _ _ _ _ (Reachable.newServer sampleCA))))⟩

/-- C4: after `RemoveRoute` the domain has neither a backend nor a credential;
and when it had neither before, the server is exactly what it was. The call
has no error to return. -/
theorem RemoveRoute_removes (s : Server) (domain : String) :
    (RemoveRoute s domain).server.routes domain = none ∧
    (RemoveRoute s domain).server.certs domain = none ∧
    (s.routes domain = none → s.certs domain = none → (RemoveRoute s domain).server = s) ∧
    (RemoveRoute s domain).ret = () := by
  refine ⟨by simp [RemoveRoute], by simp [RemoveRoute], ?_, rfl⟩
  intro hr hc
  cases s with
  | mk rootCA routes certs =>
    simp only [RemoveRoute, Server.mk.injEq, true_and]
    constructor
    · funext d
      by_cases hd : d = domain
      · simp only [hd, if_true]; exact hr.symm
      · simp [hd]
    · funext d
      by_cases hd : d = domain
      · simp only [hd, if_true]; exact hc.symm
      · simp [hd]

/-- C4, at a concrete input: removing a domain a fresh server never had. -/
theorem RemoveRoute_removes_witness :
    (NewServer sampleCA).routes "api.blast" = none ∧
    (NewServer sampleCA).certs "api.blast" = none ∧
    (RemoveRoute (NewServer sampleCA) "api.blast").server = NewServer sampleCA :=
  ⟨rfl, rfl, (RemoveRoute_removes (NewServer sampleCA) "api.blast").2.2.1 rfl rfl⟩

/-- C5: the certificate-selection hook returns a certificate exactly when the
requested name has a credential in the table, and then that credential; for a
name without one it returns the error and no certificate. In a reachable state
the names with a credential are the names with a route. -/
theorem GetCertificate_selects (s : Server) (n : String) :
    (∀ c, (GetCertificate s { ServerName := n }).ret = .ok c ↔ s.certs n = some c) ∧
    (s.certs n = none →
      (GetCertificate s { ServerName := n }).ret = .error ("no certificate for " ++ n)) ∧
    (Reachable s →
      ((∃ c, (GetCertificate s { ServerName := n }).ret = .ok c) ↔ (s.routes n).isSome)) ∧
    (GetCertificate s { ServerName := n }).server = s := by
  have key : ∀ c, (GetCertificate s { ServerName := n }).ret = .ok c ↔ s.certs n = some c := by
    intro c
    unfold GetCertificate
    cases hc : s.certs n with
    | none => simp
    | some c0 => simp
  refine ⟨key, ?_, ?_, ?_⟩
  · intro hc
    unfold GetCertificate
    simp [hc]
  · intro hreach
    rw [Reachable.backend_iff_credential s hreach n, Option.isSome_iff_exists]
    exact exists_congr key
  · unfold GetCertificate
    cases s.certs n <;> rfl

/-- C5, at a concrete state with one route: the hook serves that name and
refuses another one. -/
theorem GetCertificate_selects_witness :
    (∃ c, (GetCertificate
      (AddRoute sampleLib sampleWorld (NewServer sampleCA) "api.blast" "3000").1.server
      { ServerName := "api.blast" }).ret = .ok c) ∧
    (GetCertificate
      (AddRoute sampleLib sampleWorld (NewServer sampleCA) "api.blast" "3000").1.server
      { ServerName := "unknown.blast" }).ret = .error ("no certificate for " ++ "unknown.blast") :=
  ⟨((GetCertificate_selects _ "api.blast").2.2.1
      (Reachable.addRoute _ _ _ _ _ (Reachable.newServer sampleCA))).mpr rfl,
   (GetCertificate_selects _ "unknown.blast").2.1 rfl⟩

/-- C6 as stated fails: a route whose port is not a number is registered by
`AddRoute`, and a request for that host is answered with status 500, nothing
being forwarded. -/
theorem handleRequest_unparsable_target :
    (AddRoute sampleLib sampleWorld (NewServer sampleCA) "x.blast" "abc").1.ret = none ∧
    (sampleServer "x.blast" "abc").routes (sampleRequest "x.blast").Host
      = some ("localhost:" ++ "abc") ∧
    (handleRequest sampleLib (sampleServer "x.blast" "abc") (sampleRequest "x.blast")).ret
      = Handled.httpError "Invalid target URL" 500 ∧
    ¬ ∃ targetURL out,
      (handleRequest sampleLib (sampleServer "x.blast" "abc") (sampleRequest "x.blast")).ret
        = Handled.serveHTTP targetURL out := by
  refine ⟨rfl, rfl, rfl, ?_⟩
  rintro ⟨targetURL, out, h⟩
  have h500 :
      (handleRequest sampleLib (sampleServer "x.blast" "abc") (sampleRequest "x.blast")).ret
        = Handled.httpError "Invalid target URL" 500 := rfl
  rw [h500] at h
  cases h

/-- C6, amended: a host without a route is answered with 404 and nothing is
forwarded. For a host with a route to `target`: when `url.Parse` refuses
`"http://" ++ target` the answer is 500 and nothing is forwarded; when it
yields `targetURL`, the request is handed to the reverse proxy for `targetURL`
with URL scheme and URL host those of `targetURL`, `X-Forwarded-Host` the
original host and `X-Forwarded-Proto` `https`, the rest of the request as it
came. -/
theorem handleRequest_forwards (lib : Lib) (s : Server) (r : Request) :
    (s.routes r.Host = none →
      (handleRequest lib s r).ret
        = Handled.httpError ("No route configured for " ++ r.Host) StatusNotFound) ∧
    (∀ target, s.routes r.Host = some target →
      (∀ err, lib.urlParse ("http://" ++ target) = .error err →
        (handleRequest lib s r).ret
          = Handled.httpError "Invalid target URL" StatusInternalServerError) ∧
      (∀ targetURL, lib.urlParse ("http://" ++ target) = .ok targetURL →
        ∃ out, (handleRequest lib s r).ret = Handled.serveHTTP targetURL out ∧
          out.URL.Scheme = targetURL.Scheme ∧ out.URL.Host = targetURL.Host ∧
          out.Header "X-Forwarded-Host" = [r.Host] ∧
          out.Header "X-Forwarded-Proto" = ["https"] ∧
          out.Host = r.Host ∧ out.Method = r.Method ∧ out.Body = r.Body ∧
          out.URL.Path = r.URL.Path ∧ out.URL.RawQuery = r.URL.RawQuery)) := by
  refine ⟨?_, ?_⟩
  · intro h
    unfold handleRequest
    simp only [h]
  · intro target h
    refine ⟨?_, ?_⟩
    · intro err he
      unfold handleRequest
      simp only [h, he]
    · intro targetURL hu
      unfold handleRequest
      simp only [h, hu]
      exact ⟨_, rfl, rfl, rfl, by simp [Header.Set], by simp [Header.Set], rfl, rfl, rfl, rfl, rfl⟩

/-- C6 amended, at a concrete input: a request for `api.blast`, routed to port
3000, is forwarded with scheme `http` and host `localhost:3000`. -/
theorem handleRequest_forwards_witness :
    (sampleServer "api.blast" "3000").routes (sampleRequest "api.blast").Host
      = some "localhost:3000" ∧
    sampleLib.urlParse ("http://" ++ "localhost:3000")
      = .ok { Scheme := "http", Host := "localhost:3000", Path := "", RawQuery := "" } ∧
    ∃ out, (handleRequest sampleLib (sampleServer "api.blast" "3000")
        (sampleRequest "api.blast")).ret
          = Handled.serveHTTP
              { Scheme := "http", Host := "localhost:3000", Path := "", RawQuery := "" } out ∧
      out.URL.Scheme = "http" ∧ out.URL.Host = "localhost:3000" ∧
      out.Header "X-Forwarded-Host" = ["api.blast"] ∧
      out.Header "X-Forwarded-Proto" = ["https"] ∧
      out.Host = "api.blast" ∧ out.Method = "GET" ∧ out.Body = [] ∧
      out.URL.Path = "/v1/items" ∧ out.URL.RawQuery = "page=2" :=
  ⟨rfl, rfl,
   ((handleRequest_forwards sampleLib (sampleServer "api.blast" "3000")
      (sampleRequest "api.blast")).2 "localhost:3000" rfl).2
      { Scheme := "http", Host := "localhost:3000", Path := "", RawQuery := "" } rfl⟩

/-- C7 as stated fails: `AddRoute("api", "3000")` succeeds and registers the
name `api`; the hook called with `api.blast` returns an error and a request
with Host `api.blast` is answered with 404. -/
theorem AddRoute_bare_name_not_served :
    (AddRoute sampleLib sampleWorld (NewServer sampleCA) "api" "3000").1.ret = none ∧
    (GetCertificate (sampleServer "api" "3000") { ServerName := "api" ++ ".blast" }).ret
      = .error "no certificate for api.blast" ∧
    (handleRequest sampleLib (sampleServer "api" "3000") (sampleRequest ("api" ++ ".blast"))).ret
      = Handled.httpError "No route configured for api.blast" 404 :=
  ⟨rfl, rfl, rfl⟩

/-- C7, amended: after `AddRoute` succeeds on the full domain that
`Config.AddProxy` records for a name `pfx` (`pfx ++ ".blast"`) and on its
port, the hook called with `pfx ++ ".blast"` returns the credential issued in
that call, and a request with that Host is never answered with 404: it is
handed to the reverse proxy for the URL that `url.Parse` yields for
`"http://localhost:" ++ port`, whenever it yields one. -/
theorem AddRoute_full_domain_served (lib : Lib) (w : World) (s : Server) (pfx port : String)
    (h : (AddRoute lib w s (AddProxy_mapping pfx port).FullDomain
      (AddProxy_mapping pfx port).LocalPort).1.ret = none) :
    (∃ c, (GenerateCertificate lib w s.rootCA (pfx ++ ".blast")).1 = .ok c ∧
      (GetCertificate (AddRoute lib w s (AddProxy_mapping pfx port).FullDomain
        (AddProxy_mapping pfx port).LocalPort).1.server
        { ServerName := pfx ++ ".blast" }).ret = .ok c) ∧
    (∀ r : Request, r.Host = pfx ++ ".blast" →
      (∀ body, (handleRequest lib (AddRoute lib w s (AddProxy_mapping pfx port).FullDomain
        (AddProxy_mapping pfx port).LocalPort).1.server r).ret
          ≠ Handled.httpError body StatusNotFound) ∧
      (∀ targetURL, lib.urlParse ("http://" ++ ("localhost:" ++ port)) = .ok targetURL →
        ∃ out, (handleRequest lib (AddRoute lib w s (AddProxy_mapping pfx port).FullDomain
          (AddProxy_mapping pfx port).LocalPort).1.server r).ret
            = Handled.serveHTTP targetURL out ∧
          out.URL.Scheme = targetURL.Scheme ∧ out.URL.Host = targetURL.Host ∧
          out.Header "X-Forwarded-Host" = [pfx ++ ".blast"] ∧
          out.Header "X-Forwarded-Proto" = ["https"])) := by
  simp only [AddProxy_mapping] at h ⊢
  unfold AddRoute at h ⊢
  rcases hg : GenerateCertificate lib w s.rootCA (pfx ++ ".blast") with ⟨res, w1⟩
  rw [hg] at h
  cases res with
  | error err => simp at h
  | ok tlsCert =>
    refine ⟨⟨tlsCert, rfl, ?_⟩, ?_⟩
    · simp [GetCertificate]
    · intro r hr
      refine ⟨?_, ?_⟩
      · intro body
        unfold handleRequest
        simp only [hr, if_true]
        cases lib.urlParse ("http://" ++ ("localhost:" ++ port)) with
        | error err => simp [StatusInternalServerError, StatusNotFound]
        | ok targetURL => simp
      · intro targetURL hu
        unfold handleRequest
        simp only [hr, if_true, hu]
        exact ⟨_, rfl, rfl, rfl, by simp [Header.Set], by simp [Header.Set]⟩

/-- C7 amended, at the spec's input: `AddRoute("api.blast", "3000")`, then the
hook serves `api.blast` and the request reaches `localhost:3000`. -/
theorem AddRoute_full_domain_served_witness :
    (AddRoute sampleLib sampleWorld (NewServer sampleCA) (AddProxy_mapping "api" "3000").FullDomain
      (AddProxy_mapping "api" "3000").LocalPort).1.ret = none ∧
    ∃ out, (handleRequest sampleLib
        (AddRoute sampleLib sampleWorld (NewServer sampleCA)
          (AddProxy_mapping "api" "3000").FullDomain
          (AddProxy_mapping "api" "3000").LocalPort).1.server (sampleRequest "api.blast")).ret
          = Handled.serveHTTP
              { Scheme := "http", Host := "localhost:3000", Path := "", RawQuery := "" } out ∧
      out.URL.Scheme = "http" ∧ out.URL.Host = "localhost:3000" ∧
      out.Header "X-Forwarded-Host" = ["api" ++ ".blast"] ∧
      out.Header "X-Forwarded-Proto" = ["https"] :=
  ⟨rfl,
   ((AddRoute_full_domain_served sampleLib sampleWorld (NewServer sampleCA) "api" "3000"
      rfl).2 (sampleRequest "api.blast") rfl).2
      { Scheme := "http", Host := "localhost:3000", Path := "", RawQuery := "" } rfl⟩

/-- C10 as stated fails: in `AddRoute` the issuer is called with the write lock
held, not with the lock free. -/
theorem AddRoute_issue_not_outside_lock :
    (Event.issue "api.blast", true) ∈ lockHeldAt false
      (AddRoute sampleLib sampleWorld (NewServer sampleCA) "api.blast" "3000").1.trace ∧
    (Event.issue "api.blast", false) ∉ lockHeldAt false
      (AddRoute sampleLib sampleWorld (NewServer sampleCA) "api.blast" "3000").1.trace := by
  have ht : (AddRoute sampleLib sampleWorld (NewServer sampleCA) "api.blast" "3000").1.trace
      = [Event.lock, Event.issue "api.blast", Event.writeMap, Event.writeMap, Event.unlock] :=
    rfl
  rw [ht]
  decide

/-- C10, amended: every execution of `AddRoute` takes the write lock once, as
its first step, calls the issuer once while holding it, performs the two map
writes (when the issuance succeeded) while holding the same lock, and releases
the lock once, as its last step: the trace is exactly
lock, issue, unlock when the issuance fails and
lock, issue, write, write, unlock when it succeeds, and every event after the
acquisition happens with the lock held. -/
theorem AddRoute_issues_under_lock (lib : Lib) (w : World) (s : Server)
    (domain localPort : String) :
    ((AddRoute lib w s domain localPort).1.ret = none →
      (AddRoute lib w s domain localPort).1.trace
        = [Event.lock, Event.issue domain, Event.writeMap, Event.writeMap, Event.unlock] ∧
      lockHeldAt false (AddRoute lib w s domain localPort).1.trace
        = [(Event.lock, false), (Event.issue domain, true), (Event.writeMap, true),
           (Event.writeMap, true), (Event.unlock, true)]) ∧
    ((AddRoute lib w s domain localPort).1.ret ≠ none →
      (AddRoute lib w s domain localPort).1.trace
        = [Event.lock, Event.issue domain, Event.unlock] ∧
      lockHeldAt false (AddRoute lib w s domain localPort).1.trace
        = [(Event.lock, false), (Event.issue domain, true), (Event.unlock, true)]) ∧
    (AddRoute lib w s domain localPort).1.trace.count Event.lock = 1 ∧
    (AddRoute lib w s domain localPort).1.trace.count Event.unlock = 1 ∧
    (lockHeldAt false (AddRoute lib w s domain localPort).1.trace).head?
      = some (Event.lock, false) ∧
    (lockHeldAt false (AddRoute lib w s domain localPort).1.trace).get? 1
      = some (Event.issue domain, true) ∧
    (AddRoute lib w s domain localPort).1.trace.count (Event.issue domain) = 1 ∧
    (AddRoute lib w s domain localPort).1.trace.getLast? = some Event.unlock ∧
    (∀ e held, (e, held) ∈ lockHeldAt false (AddRoute lib w s domain localPort).1.trace →
      e ≠ Event.lock → held = true) ∧
    ((AddRoute lib w s domain localPort).1.ret = none →
      (AddRoute lib w s domain localPort).1.trace.count Event.writeMap = 2) := by
  unfold AddRoute
  rcases GenerateCertificate lib w s.rootCA domain with ⟨res, w1⟩
  cases res with
  | error err =>
    refine ⟨by simp, fun _ => ⟨rfl, rfl⟩, by simp [List.count_cons],
      by simp [List.count_cons], rfl, rfl, by simp [List.count_cons], rfl, ?_, by simp⟩
    intro e held hmem hne
    simp only [lockHeldAt, List.mem_cons, Prod.mk.injEq, List.mem_nil_iff, or_false] at hmem
    rcases hmem with ⟨he, _⟩ | ⟨_, hh⟩ | ⟨_, hh⟩
    · exact absurd he hne
    · exact hh
    · exact hh
  | ok tlsCert =>
    refine ⟨fun _ => ⟨rfl, rfl⟩, by simp, by simp [List.count_cons],
      by simp [List.count_cons], rfl, rfl, by simp [List.count_cons], rfl, ?_,
      by simp [List.count_cons]⟩
    intro e held hmem hne
    simp only [lockHeldAt, List.mem_cons, Prod.mk.injEq, List.mem_nil_iff, or_false] at hmem
    rcases hmem with ⟨he, _⟩ | ⟨_, hh⟩ | ⟨_, hh⟩ | ⟨_, hh⟩ | ⟨_, hh⟩
    · exact absurd he hne
    · exact hh
    · exact hh
    · exact hh
    · exact hh

/-! ### The CA store -/

/-- A successful `os.WriteFile` puts the data at the path and touches no other
node and no permission. -/
theorem FS.WriteFile_ok (fs fs1 : FS) (path : String) (data : Bytes)
    (h : fs.WriteFile path data = .ok fs1) :
    fs1.nodes = (fun p => if p = path then some (Node.file data) else fs.nodes p) ∧
    fs1.readable = fs.readable := by
  unfold FS.WriteFile at h
  split at h
  · cases h
  · split at h
    · simp only [Except.ok.injEq] at h
      subst h
      exact ⟨rfl, rfl⟩
    · cases h

/-- A successful `os.MkdirAll` leaves every regular file and every permission
as it was. -/
theorem FS.MkdirAll_ok (fs fs1 : FS) (path : String) (h : fs.MkdirAll path = .ok fs1) :
    fs1.readable = fs.readable := by
  unfold FS.MkdirAll at h
  split at h
  · simp only [Except.ok.injEq] at h
    subst h
    rfl
  · cases h
  · split at h
    · simp only [Except.ok.injEq] at h
      subst h
      rfl
    · cases h

/-- What a successful `generateCA` returns and leaves on disk. -/
theorem generateCA_ok (lib : Lib) (w w1 : World) (caDir : String) (a : CA)
    (h : generateCA lib w caDir = (.ok a, w1)) :
    ∃ privateKey certDER cert,
      lib.x509ParseCertificate certDER = .ok cert ∧
      a = { Cert := cert, Key := privateKey
            CertPEM := lib.pemEncodeToMemory { Type_ := "CERTIFICATE", Bytes := certDER }
            KeyPEM := lib.pemEncodeToMemory
              { Type_ := "RSA PRIVATE KEY", Bytes := lib.x509MarshalPKCS1PrivateKey privateKey }
            Path := caDir } ∧
      w1.fs.readable = w.fs.readable ∧
      w1.fs.nodes (lib.filepathJoin [caDir, caKeyFile]) = some (Node.file a.KeyPEM) ∧
      (lib.filepathJoin [caDir, caCertFile] ≠ lib.filepathJoin [caDir, caKeyFile] →
        w1.fs.nodes (lib.filepathJoin [caDir, caCertFile]) = some (Node.file a.CertPEM)) := by
  unfold generateCA at h
  split at h
  · simp at h
  · rename_i fs1 hmk
    dsimp only at h
    split at h
    · simp at h
    · rename_i privateKey _
      split at h
      · simp at h
      · split at h
        · simp at h
        · rename_i certDER _
          split at h
          · simp at h
          · rename_i cert hparse
            split at h
            · simp at h
            · rename_i fs2 hw2
              split at h
              · simp at h
              · rename_i fs3 hw3
                simp only [Prod.mk.injEq, Except.ok.injEq] at h
                obtain ⟨ha, hw⟩ := h
                subst ha
                subst hw
                obtain ⟨hn2, hr2⟩ := FS.WriteFile_ok _ _ _ _ hw2
                obtain ⟨hn3, hr3⟩ := FS.WriteFile_ok _ _ _ _ hw3
                have hr1 := FS.MkdirAll_ok _ _ _ hmk
                refine ⟨privateKey, certDER, cert, hparse, rfl, ?_, ?_, ?_⟩
                · show fs3.readable = w.fs.readable
                  rw [hr3, hr2]
                  exact hr1
                · show fs3.nodes _ = _
                  rw [hn3]
                  simp
                · intro hne
                  show fs3.nodes _ = _
                  rw [hn3, hn2]
                  simp [hne]

/-- On a store whose two files exist, `EnsureCA` is `loadCA`. -/
theorem EnsureCA_of_exists (lib : Lib) (w : World) (caDir : String)
    (hdir : getCADir lib = .ok caDir)
    (hc : fileExists w (lib.filepathJoin [caDir, caCertFile]) = true)
    (hk : fileExists w (lib.filepathJoin [caDir, caKeyFile]) = true) :
    EnsureCA lib w = loadCA lib w caDir := by
  unfold EnsureCA
  simp only [hdir, hc, hk, Bool.and_self, if_true]

/-- `loadCA` on a store whose two files read, decode and parse. -/
theorem loadCA_ok (lib : Lib) (w : World) (caDir : String) (certPEM keyPEM : Bytes)
    (block keyBlock : PemBlock) (cert : X509Certificate) (key : RsaPrivateKey)
    (hrc : w.fs.ReadFile (lib.filepathJoin [caDir, caCertFile]) = .ok certPEM)
    (hrk : w.fs.ReadFile (lib.filepathJoin [caDir, caKeyFile]) = .ok keyPEM)
    (hdc : lib.pemDecode certPEM = some block)
    (hpc : lib.x509ParseCertificate block.Bytes = .ok cert)
    (hdk : lib.pemDecode keyPEM = some keyBlock)
    (hpk : lib.x509ParsePKCS1PrivateKey keyBlock.Bytes = .ok key) :
    loadCA lib w caDir
      = (.ok { Cert := cert, Key := key, CertPEM := certPEM, KeyPEM := keyPEM, Path := caDir },
         w) := by
  unfold loadCA
  simp only [hrc, hrk, hdc, hpc, hdk, hpk]

/-- `loadCA` never changes the world. -/
theorem loadCA_world (lib : Lib) (w : World) (caDir : String) : (loadCA lib w caDir).2 = w := by
  unfold loadCA
  dsimp only
  repeat' split
  all_goals rfl

/-- A stat that succeeds on a readable regular file means `os.ReadFile`
returns its content. -/
theorem FS.ReadFile_file (fs : FS) (path : String) (data : Bytes)
    (hn : fs.nodes path = some (Node.file data)) (hr : fs.readable path = true) :
    fs.ReadFile path = .ok data := by
  unfold FS.ReadFile
  simp [hn, hr]

/-- Repeated `EnsureCA` on a world that a call returns unchanged. -/
theorem EnsureCA_times_fixed (lib : Lib) (w : World) (res : Except String CA)
    (h : EnsureCA lib w = (res, w)) (n : Nat) :
    EnsureCA_times lib n w = (List.replicate n res, w) := by
  induction n with
  | zero => rfl
  | succ n ih =>
    simp only [EnsureCA_times, h, ih, List.replicate_succ]

/-- A successful `os.ReadFile` returns the content of the regular file at the
path. -/
theorem FS.ReadFile_ok (fs : FS) (path : String) (data : Bytes)
    (h : fs.ReadFile path = .ok data) : fs.nodes path = some (Node.file data) := by
  unfold FS.ReadFile at h
  split at h
  · rename_i d hn
    split at h
    · simp only [Except.ok.injEq] at h
      rw [hn, h]
    · cases h
  · cases h
  · cases h

/-- What a successful `loadCA` returns: the bytes it read from the two files,
and the world it was given. -/
theorem loadCA_ok_inv (lib : Lib) (w w1 : World) (caDir : String) (b : CA)
    (h : loadCA lib w caDir = (.ok b, w1)) :
    w.fs.ReadFile (lib.filepathJoin [caDir, caCertFile]) = .ok b.CertPEM ∧
    w.fs.ReadFile (lib.filepathJoin [caDir, caKeyFile]) = .ok b.KeyPEM ∧ w1 = w := by
  unfold loadCA at h
  dsimp only at h
  split at h
  · simp at h
  · rename_i certPEM hrc
    split at h
    · simp at h
    · split at h
      · simp at h
      · split at h
        · simp at h
        · rename_i keyPEM hrk
          split at h
          · simp at h
          · split at h
            · simp at h
            · simp only [Prod.mk.injEq, Except.ok.injEq] at h
              obtain ⟨hb, hw⟩ := h
              subst hb
              exact ⟨hrc, hrk, hw.symm⟩

/-- C8: on a store whose two files exist, read, PEM-decode and parse,
`EnsureCA` returns a CA whose `CertPEM` and `KeyPEM` are the contents of the
two files and leaves the world as it was, so any number of successive calls
return the same CA. And after a first call that generated the CA (the two
files were not both there), a next call that returns a CA returns the same
`CertPEM` and `KeyPEM` and writes nothing; it does return one, the same CA,
when the two paths differ, the files are readable, and PEM and PKCS#1 decoding
invert their encoding. -/
theorem EnsureCA_idempotent (lib : Lib) (w : World) (caDir : String)
    (hdir : getCADir lib = .ok caDir) :
    (∀ certPEM keyPEM block keyBlock cert key,
      w.fs.nodes (lib.filepathJoin [caDir, caCertFile]) = some (Node.file certPEM) →
      w.fs.readable (lib.filepathJoin [caDir, caCertFile]) = true →
      w.fs.nodes (lib.filepathJoin [caDir, caKeyFile]) = some (Node.file keyPEM) →
      w.fs.readable (lib.filepathJoin [caDir, caKeyFile]) = true →
      lib.pemDecode certPEM = some block → lib.x509ParseCertificate block.Bytes = .ok cert →
      lib.pemDecode keyPEM = some keyBlock →
      lib.x509ParsePKCS1PrivateKey keyBlock.Bytes = .ok key →
      EnsureCA lib w
        = (.ok { Cert := cert, Key := key, CertPEM := certPEM, KeyPEM := keyPEM, Path := caDir },
           w) ∧
      ∀ n, EnsureCA_times lib n w
        = (List.replicate n
            (.ok { Cert := cert, Key := key, CertPEM := certPEM, KeyPEM := keyPEM,
                   Path := caDir }), w)) ∧
    (∀ a w1,
      (fileExists w (lib.filepathJoin [caDir, caCertFile]) &&
        fileExists w (lib.filepathJoin [caDir, caKeyFile])) = false →
      EnsureCA lib w = (.ok a, w1) →
      lib.filepathJoin [caDir, caCertFile] ≠ lib.filepathJoin [caDir, caKeyFile] →
      (∀ b w2, EnsureCA lib w1 = (.ok b, w2) →
        b.CertPEM = a.CertPEM ∧ b.KeyPEM = a.KeyPEM ∧ w2 = w1) ∧
      (w.fs.readable (lib.filepathJoin [caDir, caCertFile]) = true →
        w.fs.readable (lib.filepathJoin [caDir, caKeyFile]) = true →
        (∀ der, lib.pemDecode (lib.pemEncodeToMemory { Type_ := "CERTIFICATE", Bytes := der })
          = some { Type_ := "CERTIFICATE", Bytes := der }) →
        (∀ der, lib.pemDecode (lib.pemEncodeToMemory { Type_ := "RSA PRIVATE KEY", Bytes := der })
          = some { Type_ := "RSA PRIVATE KEY", Bytes := der }) →
        (∀ k, lib.x509ParsePKCS1PrivateKey (lib.x509MarshalPKCS1PrivateKey k) = .ok k) →
        EnsureCA lib w1 = (.ok a, w1))) := by
  refine ⟨?_, ?_⟩
  · intro certPEM keyPEM block keyBlock cert key hnc hrc hnk hrk hdc hpc hdk hpk
    have hload : EnsureCA lib w
        = (.ok { Cert := cert, Key := key, CertPEM := certPEM, KeyPEM := keyPEM, Path := caDir },
           w) := by
      rw [EnsureCA_of_exists lib w caDir hdir (by simp [fileExists, FS.stat, hnc])
        (by simp [fileExists, FS.stat, hnk])]
      exact loadCA_ok lib w caDir certPEM keyPEM block keyBlock cert key
        (FS.ReadFile_file _ _ _ hnc hrc) (FS.ReadFile_file _ _ _ hnk hrk) hdc hpc hdk hpk
    exact ⟨hload, EnsureCA_times_fixed lib w _ hload⟩
  · intro a w1 hmissing hgen hne
    have hg : generateCA lib w caDir = (.ok a, w1) := by
      unfold EnsureCA at hgen
      simp only [hdir, hmissing] at hgen
      exact hgen
    obtain ⟨privateKey, certDER, cert, hparse, ha, hread, hkey, hcert⟩ :=
      generateCA_ok lib w w1 caDir a hg
    have hcert := hcert hne
    have hex : EnsureCA lib w1 = loadCA lib w1 caDir :=
      EnsureCA_of_exists lib w1 caDir hdir (by simp [fileExists, FS.stat, hcert])
        (by simp [fileExists, FS.stat, hkey])
    refine ⟨?_, ?_⟩
    · intro b w2 hb
      rw [hex] at hb
      obtain ⟨h1, h2, h3⟩ := loadCA_ok_inv lib w1 w2 caDir b hb
      have e1 := FS.ReadFile_ok _ _ _ h1
      have e2 := FS.ReadFile_ok _ _ _ h2
      rw [hcert] at e1
      rw [hkey] at e2
      simp only [Option.some.injEq, Node.file.injEq] at e1 e2
      exact ⟨e1.symm, e2.symm, h3⟩
    · intro hrc hrk hpemc hpemk hpkcs
      rw [hex]
      have hl := loadCA_ok lib w1 caDir a.CertPEM a.KeyPEM
        { Type_ := "CERTIFICATE", Bytes := certDER }
        { Type_ := "RSA PRIVATE KEY", Bytes := lib.x509MarshalPKCS1PrivateKey privateKey }
        cert privateKey
        (FS.ReadFile_file _ _ _ hcert (by rw [hread]; exact hrc))
        (FS.ReadFile_file _ _ _ hkey (by rw [hread]; exact hrk))
        (by rw [ha]; exact hpemc certDER) hparse
        (by rw [ha]; exact hpemk _) (hpkcs privateKey)
      rw [hl, ha]

/-- C8, at a concrete store: the first call on the empty file system generates
the CA; the second and every later call load the same CA and leave the world
alone. -/
theorem EnsureCA_idempotent_witness :
    EnsureCA sampleLib sampleWorld = (.ok generatedCA, (EnsureCA sampleLib sampleWorld).2) ∧
    EnsureCA sampleLib (EnsureCA sampleLib sampleWorld).2
      = (.ok generatedCA, (EnsureCA sampleLib sampleWorld).2) ∧
    EnsureCA_times sampleLib 3 (EnsureCA sampleLib sampleWorld).2
      = ([.ok generatedCA, .ok generatedCA, .ok generatedCA],
         (EnsureCA sampleLib sampleWorld).2) :=
  ⟨rfl,
   ((EnsureCA_idempotent sampleLib sampleWorld "/home/dev/.config/blast/ca" rfl).2
      generatedCA (EnsureCA sampleLib sampleWorld).2 rfl rfl (by decide)).2 rfl rfl
      (fun _ => rfl) (fun _ => rfl) (fun _ => rfl),
   ((EnsureCA_idempotent sampleLib (EnsureCA sampleLib sampleWorld).2
      "/home/dev/.config/blast/ca" rfl).1
      [1, 12346, 1700000000, 2015360001, 1] [2, 1000, 65537, 7]
      { Type_ := "CERTIFICATE", Bytes := [12346, 1700000000, 2015360001, 1] }
      { Type_ := "RSA PRIVATE KEY", Bytes := [1000, 65537, 7] }
      generatedCA.Cert generatedCA.Key rfl rfl rfl rfl rfl rfl rfl rfl).2 3⟩

/-- C9: when both files of the store exist but they do not both read, decode
and parse, `EnsureCA` returns an error and no CA, and the world afterwards is
the world before: no read of the entropy source (no key pair generated) and
the file system untouched. -/
theorem EnsureCA_corrupt_store (lib : Lib) (w : World) (caDir : String)
    (hdir : getCADir lib = .ok caDir)
    (hc : fileExists w (lib.filepathJoin [caDir, caCertFile]) = true)
    (hk : fileExists w (lib.filepathJoin [caDir, caKeyFile]) = true)
    (hbad : ∀ certPEM keyPEM,
      w.fs.ReadFile (lib.filepathJoin [caDir, caCertFile]) = .ok certPEM →
      w.fs.ReadFile (lib.filepathJoin [caDir, caKeyFile]) = .ok keyPEM →
      certDecodes lib certPEM = false ∨ keyDecodes lib keyPEM = false) :
    ∃ err, EnsureCA lib w = (.error err, w) := by
  rw [EnsureCA_of_exists lib w caDir hdir hc hk]
  unfold loadCA
  dsimp only
  split
  · exact ⟨_, rfl⟩
  · rename_i certPEM hrc
    split
    · exact ⟨_, rfl⟩
    · rename_i block hdc
      split
      · exact ⟨_, rfl⟩
      · rename_i cert hpc
        split
        · exact ⟨_, rfl⟩
        · rename_i keyPEM hrk
          split
          · exact ⟨_, rfl⟩
          · rename_i keyBlock hdk
            split
            · exact ⟨_, rfl⟩
            · rename_i key hpk
              exfalso
              rcases hbad certPEM keyPEM hrc hrk with h | h
              · simp [certDecodes, hdc, hpc] at h
              · simp [keyDecodes, hdk, hpk] at h

/-- C9, at a concrete store: the certificate file holds bytes that do not
PEM-decode; `EnsureCA` reports it and changes nothing. -/
theorem EnsureCA_corrupt_store_witness :
    fileExists corruptStore "/home/dev/.config/blast/ca/blast-ca.crt" = true ∧
    fileExists corruptStore "/home/dev/.config/blast/ca/blast-ca.key" = true ∧
    certDecodes sampleLib [9, 9] = false ∧
    EnsureCA sampleLib corruptStore = (.error "failed to decode certificate PEM", corruptStore) ∧
    ∃ err, EnsureCA sampleLib corruptStore = (.error err, corruptStore) :=
  ⟨rfl, rfl, rfl, rfl,
   EnsureCA_corrupt_store sampleLib corruptStore "/home/dev/.config/blast/ca" rfl rfl rfl
    (fun certPEM _ hrc _ => Or.inl (by
      have hn := FS.ReadFile_ok _ _ _ hrc
      have : certPEM = [9, 9] := by
        have h2 : corruptStore.fs.nodes
            (sampleLib.filepathJoin ["/home/dev/.config/blast/ca", caCertFile])
              = some (Node.file [9, 9]) := rfl
        rw [h2] at hn
        simp only [Option.some.injEq, Node.file.injEq] at hn
        exact hn.symm
      rw [this]
      rfl))⟩

/-! ### The hosts file -/

/-- `Contains` is the substring relation. -/
theorem Contains_iff (s sub : Bytes) : Contains s sub = true ↔ sub <:+: s := by
  induction s with
  | nil =>
    simp only [Contains, List.isEmpty_iff, List.infix_nil]
  | cons b s ih =>
    simp only [Contains, Bool.or_eq_true, List.isPrefixOf_iff_prefix, ih, List.infix_cons_iff]

/-- A line that contains both the domain and the marker still does when bytes
are added around it. -/
theorem matchesEntry_mono (domain l l1 : Bytes) (h : l <:+: l1)
    (hm : matchesEntry domain l = true) : matchesEntry domain l1 = true := by
  simp only [matchesEntry, Bool.and_eq_true, Contains_iff] at hm ⊢
  exact ⟨hm.1.trans h, hm.2.trans h⟩

/-- What `dropCR` returns is a beginning of its argument. -/
theorem dropCR_initial (l : Bytes) : dropCR l <+: l := by
  unfold dropCR
  split
  · exact List.dropLast_prefix l
  · exact List.prefix_refl l

/-- The pieces `rawLines` cuts contain no line feed. -/
theorem rawLines_no_lf (content : Bytes) : ∀ l ∈ rawLines content, 10 ∉ l := by
  induction content with
  | nil => simp [rawLines]
  | cons b rest ih =>
    intro l hl
    unfold rawLines at hl
    split at hl
    · rcases List.mem_cons.mp hl with h | h
      · simp [h]
      · exact ih l h
    · rename_i hb
      split at hl
      · simp only [List.mem_singleton] at hl
        simp only [hl, List.mem_singleton]
        exact fun h => hb h.symm
      · rename_i x xs hx
        rw [hx] at ih
        rcases List.mem_cons.mp hl with h | h
        · rw [h]
          intro hmem
          rcases List.mem_cons.mp hmem with h1 | h1
          · exact hb h1.symm
          · exact ih x (List.mem_cons_self _ _) h1
        · exact ih l (List.mem_cons_of_mem _ h)

/-- A text that ends in a line feed has at least one line. -/
theorem rawLines_lf_ne_nil (xs : Bytes) : rawLines (xs ++ [10]) ≠ [] := by
  induction xs with
  | nil => simp [rawLines]
  | cons b rest ih =>
    simp only [List.cons_append]
    unfold rawLines
    split
    · simp
    · split <;> simp

/-- Cutting at a line feed: the lines up to it, then the lines after it. -/
theorem rawLines_append_lf (xs ys : Bytes) :
    rawLines (xs ++ 10 :: ys) = rawLines (xs ++ [10]) ++ rawLines ys := by
  induction xs with
  | nil => simp [rawLines]
  | cons b rest ih =>
    simp only [List.cons_append]
    by_cases hb : b = 10
    · simp only [rawLines, hb, if_true, ih, List.cons_append]
    · have hne := rawLines_lf_ne_nil rest
      cases hr : rawLines (rest ++ [10]) with
      | nil => exact absurd hr hne
      | cons x xs =>
        simp only [rawLines, hb, if_false, ih, hr, List.cons_append]

/-- A single terminated line. -/
theorem rawLines_line (l : Bytes) (h : 10 ∉ l) : rawLines (l ++ [10]) = [l] := by
  induction l with
  | nil => simp [rawLines]
  | cons b rest ih =>
    have hb : b ≠ 10 := fun e => h (by simp [e])
    have hrest : 10 ∉ rest := fun e => h (List.mem_cons_of_mem _ e)
    have e := ih hrest
    simp only [List.cons_append, rawLines, hb, if_false, List.append_eq, e]

/-- Appending a terminated line to a text that is empty or ends in a line feed
adds that line after the lines there were. -/
theorem rawLines_append_line (content l : Bytes)
    (hc : content = [] ∨ content.getLast? = some 10) (hl : 10 ∉ l) :
    rawLines (content ++ l ++ [10]) = rawLines content ++ [l] := by
  rcases hc with hc | hc
  · subst hc
    simpa [rawLines] using rawLines_line l hl
  · obtain ⟨pre, hpre⟩ : ∃ pre, content = pre ++ [10] := by
      rcases List.eq_nil_or_concat content with h | ⟨pre, b, h⟩
      · rw [h] at hc
        simp at hc
      · rw [h] at hc
        simp at hc
        exact ⟨pre, by rw [h, hc, List.concat_eq_append]⟩
    rw [hpre]
    have e : pre ++ [10] ++ l ++ [10] = pre ++ 10 :: (l ++ [10]) := by simp
    rw [e, rawLines_append_lf, rawLines_line l hl]

/-- The lines of `strings.Join(ls, "\n") + "\n"` are `ls`, for a non-empty
`ls` whose members contain no line feed. -/
theorem rawLines_intercalate (ls : List Bytes) (hne : ls ≠ []) (h : ∀ l ∈ ls, 10 ∉ l) :
    rawLines ([10].intercalate ls ++ [10]) = ls := by
  induction ls with
  | nil => exact absurd rfl hne
  | cons l rest ih =>
    cases rest with
    | nil =>
      simpa [List.intercalate, List.intersperse] using rawLines_line l (h l (by simp))
    | cons l1 rest1 =>
      have hrest := ih (by simp) (fun x hx => h x (List.mem_cons_of_mem _ hx))
      have e : [10].intercalate (l :: l1 :: rest1) ++ [10]
          = l ++ 10 :: ([10].intercalate (l1 :: rest1) ++ [10]) := by
        simp [List.intercalate, List.intersperse]
      rw [e, rawLines_append_lf, rawLines_line l (h l (by simp)), hrest]
      rfl

/-- The bytes of the marker. -/
theorem marker_eq : marker = [35, 32, 98, 108, 97, 115, 116, 45, 112, 114, 111, 120, 121] :=
  rfl

/-- The formatted line, byte by byte around the domain. -/
theorem entryLine_eq (domain : Bytes) :
    entryLine domain
      = [49, 50, 55, 46, 48, 46, 48, 46, 49, 32] ++ domain ++ [32] ++ marker :=
  rfl

/-- The formatted line has a line feed only if the domain has one. -/
theorem entryLine_no_lf (domain : Bytes) (h : 10 ∉ domain) : 10 ∉ entryLine domain := by
  rw [entryLine_eq, marker_eq]
  simp [h]

/-- The formatted line contains the domain and the marker, whatever stands
before it on the line. -/
theorem matchesEntry_entryLine (domain t : Bytes) :
    matchesEntry domain (t ++ entryLine domain) = true := by
  simp only [matchesEntry, Bool.and_eq_true, Contains_iff, entryLine_eq]
  refine ⟨⟨t ++ [49, 50, 55, 46, 48, 46, 48, 46, 49, 32], [32] ++ marker, by simp⟩, ?_⟩
  exact ⟨t ++ [49, 50, 55, 46, 48, 46, 48, 46, 49, 32] ++ domain ++ [32], [], by simp⟩

/-- A line that ends with the formatted line has no trailing carriage return
to drop. -/
theorem dropCR_entryLine (domain t : Bytes) :
    dropCR (t ++ entryLine domain) = t ++ entryLine domain := by
  have h : (t ++ entryLine domain).getLast? = some 121 := by
    have e : t ++ entryLine domain
        = (t ++ [49, 50, 55, 46, 48, 46, 48, 46, 49, 32] ++ domain
            ++ [32, 35, 32, 98, 108, 97, 115, 116, 45, 112, 114, 111, 120]) ++ [121] := by
      rw [entryLine_eq, marker_eq]
      simp
    rw [e, List.getLast?_append]
    rfl
  unfold dropCR
  rw [h]
  simp

/-- The empty line is no entry. -/
theorem matchesEntry_nil (domain : Bytes) : matchesEntry domain [] = false := by
  simp [matchesEntry, Contains, marker_eq]

/-- After a terminated line is appended to a text, the last line of the text
ends with it. -/
theorem rawLines_appended (content l : Bytes) (hl : 10 ∉ l) :
    ∃ t, t ++ l ∈ rawLines (content ++ l ++ [10]) := by
  induction content with
  | nil =>
    refine ⟨[], ?_⟩
    simp only [List.nil_append]
    rw [rawLines_line l hl]
    simp
  | cons b rest ih =>
    obtain ⟨t, ht⟩ := ih
    simp only [List.cons_append]
    by_cases hb : b = 10
    · refine ⟨t, ?_⟩
      simp only [rawLines, hb, if_true]
      exact List.mem_cons_of_mem _ (by simpa using ht)
    · have hne := rawLines_lf_ne_nil (rest ++ l)
      cases hr : rawLines (rest ++ l ++ [10]) with
      | nil => exact absurd hr hne
      | cons x xs =>
        rw [hr] at ht
        have hgoal : rawLines (b :: (rest ++ l ++ [10])) = (b :: x) :: xs := by
          simp only [rawLines, hb, if_false, hr]
        rw [hgoal]
        rcases List.mem_cons.mp ht with h | h
        · exact ⟨b :: t, by simp [h]⟩
        · exact ⟨t, List.mem_cons_of_mem _ h⟩

/-- When every line fits the scanner's buffer, the scanner yields every line. -/
theorem scanLines_of_fit (content : Bytes)
    (h : ∀ l ∈ rawLines content, l.length < MaxScanTokenSize) :
    scanLines content = (rawLines content).map dropCR := by
  unfold scanLines
  rw [List.takeWhile_eq_self_iff.mpr]
  intro l hl
  simpa using h l hl

/-- Every scanned line is a line of the text without one trailing carriage
return. -/
theorem scanLines_mem (content l : Bytes) (h : l ∈ scanLines content) :
    ∃ r ∈ rawLines content, l = dropCR r := by
  unfold scanLines at h
  obtain ⟨r, hr, rfl⟩ := List.mem_map.mp h
  exact ⟨r, List.IsPrefix.subset ( List.takeWhile_prefix _) hr, rfl⟩

/-- Scanned lines contain no line feed. -/
theorem scanLines_no_lf (content l : Bytes) (h : l ∈ scanLines content) : 10 ∉ l := by
  obtain ⟨r, hr, rfl⟩ := scanLines_mem content l h
  exact fun hmem => rawLines_no_lf content r hr (List.IsPrefix.subset (dropCR_initial r) hmem)

/-- A file that read can be read again after a write, and holds what was
written. -/
theorem FS.ReadFile_WriteFile (fs fs1 : FS) (path : String) (old data : Bytes)
    (hr : fs.ReadFile path = .ok old) (hw : fs.WriteFile path data = .ok fs1) :
    fs1.ReadFile path = .ok data := by
  have hreadable : fs.readable path = true := by
    unfold FS.ReadFile at hr
    split at hr
    · split at hr
      · assumption
      · cases hr
    · cases hr
    · cases hr
  obtain ⟨hn, hrd⟩ := FS.WriteFile_ok fs fs1 path data hw
  apply FS.ReadFile_file
  · rw [hn]
    simp
  · rw [hrd]
    exact hreadable

/-- The two outcomes of `AddEntry`: the world is left as it was, or the file
is rewritten as its content followed by the formatted line and a line feed. -/
theorem AddEntry_cases (goos : String) (w : World) (domain : Bytes) :
    (AddEntry goos w domain).2 = w ∨
    ∃ content fs1, w.fs.ReadFile (GetHostsPath goos) = .ok content ∧
      (scanLines content).any (matchesEntry domain) = false ∧
      w.fs.WriteFile (GetHostsPath goos) (content ++ (entryLine domain ++ [10])) = .ok fs1 ∧
      AddEntry goos w domain = (none, { w with fs := fs1 }) := by
  unfold AddEntry
  dsimp only
  split
  · exact Or.inl rfl
  · rename_i content hread
    split
    · exact Or.inl rfl
    · rename_i hany
      split
      · exact Or.inl rfl
      · rename_i fs1 hw
        exact Or.inr ⟨content, fs1, hread, by simpa using hany, hw, rfl⟩

/-- The two outcomes of `RemoveEntry`: the world is left as it was, or the
file is rewritten as the scanned lines that are no entry, joined and
terminated by line feeds. -/
theorem RemoveEntry_cases (goos : String) (w : World) (domain : Bytes) :
    (RemoveEntry goos w domain).2 = w ∨
    ∃ content fs1, w.fs.ReadFile (GetHostsPath goos) = .ok content ∧
      (scanLines content).any (matchesEntry domain) = true ∧
      w.fs.WriteFile (GetHostsPath goos)
        ([10].intercalate ((scanLines content).filter (fun line => !matchesEntry domain line))
          ++ [10]) = .ok fs1 ∧
      RemoveEntry goos w domain = (none, { w with fs := fs1 }) := by
  unfold RemoveEntry
  dsimp only
  split
  · exact Or.inl rfl
  · rename_i content hread
    split
    · exact Or.inl rfl
    · rename_i hany
      split
      · exact Or.inl rfl
      · rename_i fs1 hw
        exact Or.inr ⟨content, fs1, hread, by simpa using hany, hw, rfl⟩

/-- `AddEntry` on a file that already has a matching line leaves the world as
it was and returns no error. -/
theorem AddEntry_present (goos : String) (w : World) (domain content : Bytes)
    (hread : w.fs.ReadFile (GetHostsPath goos) = .ok content)
    (hany : (scanLines content).any (matchesEntry domain) = true) :
    AddEntry goos w domain = (none, w) := by
  unfold AddEntry
  simp only [hread, hany, if_true]

/-- `RemoveEntry` on a file without a matching line leaves the world as it
was and returns no error. -/
theorem RemoveEntry_absent (goos : String) (w : World) (domain content : Bytes)
    (hread : w.fs.ReadFile (GetHostsPath goos) = .ok content)
    (hany : (scanLines content).any (matchesEntry domain) = false) :
    RemoveEntry goos w domain = (none, w) := by
  unfold RemoveEntry
  simp only [hread, hany, Bool.not_false, if_true]

/-- A line that does not fit the scanner's buffer ends the scan: nothing of it
or after it is scanned. -/
theorem scanLines_overlong (long rest : Bytes) (hlf : 10 ∉ long)
    (hlen : MaxScanTokenSize ≤ long.length) : scanLines (long ++ 10 :: rest) = [] := by
  unfold scanLines
  rw [rawLines_append_lf, rawLines_line long hlf]
  have hno : ¬ long.length < MaxScanTokenSize := Nat.not_lt.mpr hlen
  simp [List.takeWhile, hno]

/-- The scan of a fitting line followed by a line that does not fit yields the
first line only. -/
theorem scanLines_stop (l1 long rest : Bytes) (h1 : 10 ∉ l1)
    (hfit : l1.length < MaxScanTokenSize) (hlf : 10 ∉ long)
    (hlen : MaxScanTokenSize ≤ long.length) :
    scanLines (l1 ++ 10 :: (long ++ 10 :: rest)) = [dropCR l1] := by
  unfold scanLines
  rw [rawLines_append_lf, rawLines_line l1 h1, rawLines_append_lf, rawLines_line long hlf]
  have hno : ¬ long.length < MaxScanTokenSize := Nat.not_lt.mpr hlen
  simp [List.takeWhile, hno, hfit]

/-- Writing the hosts file of `hostsWorld` gives the `hostsWorld` of the new
content. -/
theorem hostsWorld_WriteFile (content data : Bytes) :
    (hostsWorld content).fs.WriteFile (GetHostsPath "linux") data
      = .ok (hostsWorld data).fs := by
  have hpath : GetHostsPath "linux" = "/etc/hosts" := rfl
  rw [hpath]
  unfold FS.WriteFile
  simp only [hostsWorld, if_true]
  congr 2
  funext p
  by_cases hp : p = "/etc/hosts" <;> simp [hp]

/-- `AddEntry` on `hostsWorld` when the scan finds no matching line. -/
theorem AddEntry_hostsWorld (content domain : Bytes)
    (h : (scanLines content).any (matchesEntry domain) = false) :
    AddEntry "linux" (hostsWorld content) domain
      = (none, hostsWorld (content ++ (entryLine domain ++ [10]))) := by
  have hread : (hostsWorld content).fs.ReadFile (GetHostsPath "linux") = .ok content := rfl
  unfold AddEntry
  simp only [hread, h, hostsWorld_WriteFile]
  rfl

/-- `RemoveEntry` on `hostsWorld` when the scan finds a matching line. -/
theorem RemoveEntry_hostsWorld (content domain : Bytes)
    (h : (scanLines content).any (matchesEntry domain) = true) :
    RemoveEntry "linux" (hostsWorld content) domain
      = (none, hostsWorld ([10].intercalate
          ((scanLines content).filter (fun line => !matchesEntry domain line)) ++ [10])) := by
  have hread : (hostsWorld content).fs.ReadFile (GetHostsPath "linux") = .ok content := rfl
  unfold RemoveEntry
  simp only [hread, h, hostsWorld_WriteFile]
  rfl

set_option maxRecDepth 8000 in
/-- C11: the code breaks the claim at these files. `RemoveEntry("api.blast")`
returns no error and removes, with the entry of `api.blast`, the marker-tagged
line of another domain, `myapi.blast`, whose text contains `api.blast`. On a
file whose last line has no line feed, `AddEntry` glues its entry to that line,
which is then no longer a line of the file. On a file with CRLF line ends,
`RemoveEntry` rewrites the lines it keeps with bare line feeds. And when a
line does not fit the scanner's buffer, `RemoveEntry` drops that line and
every line after it. -/
theorem hosts_frame_violations :
    (rawLines (goBytes
        "127.0.0.1 localhost\n127.0.0.1 myapi.blast # blast-proxy\n127.0.0.1 api.blast # blast-proxy\n")
        = [goBytes "127.0.0.1 localhost", entryLine (goBytes "myapi.blast"),
           entryLine (goBytes "api.blast")] ∧
      entryLine (goBytes "myapi.blast") ≠ entryLine (goBytes "api.blast") ∧
      (RemoveEntry "linux" (hostsWorld (goBytes
        "127.0.0.1 localhost\n127.0.0.1 myapi.blast # blast-proxy\n127.0.0.1 api.blast # blast-proxy\n"))
        (goBytes "api.blast")).1 = none ∧
      hostsContent (RemoveEntry "linux" (hostsWorld (goBytes
        "127.0.0.1 localhost\n127.0.0.1 myapi.blast # blast-proxy\n127.0.0.1 api.blast # blast-proxy\n"))
        (goBytes "api.blast")).2 = .ok (goBytes "127.0.0.1 localhost\n") ∧
      rawLines (goBytes "127.0.0.1 localhost\n") = [goBytes "127.0.0.1 localhost"]) ∧
    (hostsContent (AddEntry "linux" (hostsWorld (goBytes "127.0.0.1 localhost"))
        (goBytes "api.blast")).2
        = .ok (goBytes "127.0.0.1 localhost127.0.0.1 api.blast # blast-proxy\n") ∧
      rawLines (goBytes "127.0.0.1 localhost127.0.0.1 api.blast # blast-proxy\n")
        = [goBytes "127.0.0.1 localhost127.0.0.1 api.blast # blast-proxy"]) ∧
    hostsContent (RemoveEntry "linux" (hostsWorld (goBytes
        "127.0.0.1 localhost\r\n127.0.0.1 api.blast # blast-proxy\r\n"))
        (goBytes "api.blast")).2 = .ok (goBytes "127.0.0.1 localhost\n") ∧
    hostsContent (RemoveEntry "linux" (hostsWorld
        (entryLine (goBytes "api.blast") ++ 10 ::
          (List.replicate (2 * MaxScanTokenSize) 97 ++ 10 :: goBytes "10.0.0.5 nas\n")))
        (goBytes "api.blast")).2 = .ok [10] := by
  refine ⟨⟨rfl, ?_, rfl, rfl, rfl⟩, ⟨rfl, rfl⟩, rfl, ?_⟩
  · intro h
    have hlen := congrArg List.length h
    revert hlen
    decide
  · have hscan := scanLines_stop (entryLine (goBytes "api.blast"))
        (List.replicate (2 * MaxScanTokenSize) 97) (goBytes "10.0.0.5 nas\n")
        (entryLine_no_lf _ (by decide)) (by decide)
        (by simp [List.mem_replicate]) (by simp [List.length_replicate]; omega)
    have hdrop := dropCR_entryLine (goBytes "api.blast") []
    have hmatch := matchesEntry_entryLine (goBytes "api.blast") []
    simp only [List.nil_append] at hdrop hmatch
    rw [hdrop] at hscan
    rw [RemoveEntry_hostsWorld _ _ (by rw [hscan]; simp [hmatch])]
    rw [hscan]
    simp only [List.filter, hmatch, Bool.not_true]
    rfl

/-- On a well-formed file the two operations keep the frame. For a hosts file
that reads as `content`:
`AddEntry`, on a content that is empty or ends in a line feed and for a domain
without a line feed, writes nothing when a scanned line contains both the
domain and the marker, and otherwise, the write succeeding, the file holds the
lines there were followed by the one line `127.0.0.1 <domain> # blast-proxy`.
`RemoveEntry`, when every line fits the scanner's buffer, writes nothing when
no line contains both the domain and the marker, and otherwise, the write
succeeding, the file holds, when any is left, the lines (each without one
trailing carriage return) that do not contain both, in their order. -/
theorem hosts_frame (goos : String) (w : World) (domain content : Bytes)
    (hread : w.fs.ReadFile (GetHostsPath goos) = .ok content) :
    ((content = [] ∨ content.getLast? = some 10) → 10 ∉ domain →
      ((scanLines content).any (matchesEntry domain) = true →
        AddEntry goos w domain = (none, w)) ∧
      ((scanLines content).any (matchesEntry domain) = false → ∀ fs1,
        w.fs.WriteFile (GetHostsPath goos) (content ++ (entryLine domain ++ [10])) = .ok fs1 →
        AddEntry goos w domain = (none, { w with fs := fs1 }) ∧
        fs1.ReadFile (GetHostsPath goos) = .ok (content ++ entryLine domain ++ [10]) ∧
        rawLines (content ++ entryLine domain ++ [10])
          = rawLines content ++ [entryLine domain])) ∧
    ((∀ l ∈ rawLines content, l.length < MaxScanTokenSize) →
      ((scanLines content).any (matchesEntry domain) = false →
        RemoveEntry goos w domain = (none, w)) ∧
      ((scanLines content).any (matchesEntry domain) = true → ∀ fs1,
        w.fs.WriteFile (GetHostsPath goos)
          ([10].intercalate
            (((rawLines content).map dropCR).filter (fun l => !matchesEntry domain l))
            ++ [10]) = .ok fs1 →
        RemoveEntry goos w domain = (none, { w with fs := fs1 }) ∧
        fs1.ReadFile (GetHostsPath goos)
          = .ok ([10].intercalate
              (((rawLines content).map dropCR).filter (fun l => !matchesEntry domain l))
              ++ [10]) ∧
        (((rawLines content).map dropCR).filter (fun l => !matchesEntry domain l) ≠ [] →
          rawLines ([10].intercalate
              (((rawLines content).map dropCR).filter (fun l => !matchesEntry domain l))
              ++ [10])
            = ((rawLines content).map dropCR).filter (fun l => !matchesEntry domain l)))) ∧
    (∀ l ∈ (rawLines content).map dropCR,
      (Contains l marker = false ∨ Contains l domain = false) →
      l ∈ ((rawLines content).map dropCR).filter (fun l => !matchesEntry domain l)) := by
  refine ⟨?_, ?_, ?_⟩
  · intro hterm hlf
    refine ⟨AddEntry_present goos w domain content hread, ?_⟩
    intro hany fs1 hw
    refine ⟨?_, ?_, ?_⟩
    · unfold AddEntry
      simp only [hread, hany, hw]
      rfl
    · rw [List.append_assoc]
      exact FS.ReadFile_WriteFile _ _ _ _ _ hread hw
    · exact rawLines_append_line content (entryLine domain) hterm
        (entryLine_no_lf domain hlf)
  · intro hfit
    refine ⟨RemoveEntry_absent goos w domain content hread, ?_⟩
    intro hany fs1 hw
    refine ⟨?_, FS.ReadFile_WriteFile _ _ _ _ _ hread hw, ?_⟩
    · rw [← scanLines_of_fit content hfit] at hw
      unfold RemoveEntry
      simp only [hread, hany, hw]
      rfl
    · intro hne
      apply rawLines_intercalate _ hne
      intro l hl
      have hmem := (List.mem_filter.mp hl).1
      rw [← scanLines_of_fit content hfit] at hmem
      exact scanLines_no_lf content l hmem
  · intro l hl hno
    refine List.mem_filter.mpr ⟨hl, ?_⟩
    rcases hno with h | h <;> simp [matchesEntry, h]

set_option maxRecDepth 8000 in
/-- The frame at a concrete file: `AddEntry` appends the entry for `api.blast`
as a third line, and `RemoveEntry` takes it away again and keeps the two other
lines. -/
theorem hosts_frame_witness :
    (hostsWorld (goBytes "127.0.0.1 localhost\n10.0.0.5 nas\n")).fs.ReadFile (GetHostsPath "linux")
      = .ok (goBytes "127.0.0.1 localhost\n10.0.0.5 nas\n") ∧
    (AddEntry "linux" (hostsWorld (goBytes "127.0.0.1 localhost\n10.0.0.5 nas\n"))
        (goBytes "api.blast")
        = (none, hostsWorld (goBytes "127.0.0.1 localhost\n10.0.0.5 nas\n"
            ++ (entryLine (goBytes "api.blast") ++ [10]))) ∧
      (hostsWorld (goBytes "127.0.0.1 localhost\n10.0.0.5 nas\n"
          ++ (entryLine (goBytes "api.blast") ++ [10]))).fs.ReadFile (GetHostsPath "linux")
        = .ok (goBytes "127.0.0.1 localhost\n10.0.0.5 nas\n"
            ++ entryLine (goBytes "api.blast") ++ [10]) ∧
      rawLines (goBytes "127.0.0.1 localhost\n10.0.0.5 nas\n"
          ++ entryLine (goBytes "api.blast") ++ [10])
        = rawLines (goBytes "127.0.0.1 localhost\n10.0.0.5 nas\n")
          ++ [entryLine (goBytes "api.blast")]) ∧
    hostsContent (AddEntry "linux" (hostsWorld (goBytes "127.0.0.1 localhost\n10.0.0.5 nas\n"))
      (goBytes "api.blast")).2
      = .ok (goBytes "127.0.0.1 localhost\n10.0.0.5 nas\n127.0.0.1 api.blast # blast-proxy\n") ∧
    hostsContent (RemoveEntry "linux" (hostsWorld
      (goBytes "127.0.0.1 localhost\n10.0.0.5 nas\n127.0.0.1 api.blast # blast-proxy\n"))
      (goBytes "api.blast")).2 = .ok (goBytes "127.0.0.1 localhost\n10.0.0.5 nas\n") :=
  ⟨rfl,
   ((hosts_frame "linux" (hostsWorld (goBytes "127.0.0.1 localhost\n10.0.0.5 nas\n"))
      (goBytes "api.blast") (goBytes "127.0.0.1 localhost\n10.0.0.5 nas\n") rfl).1
      (Or.inr rfl) (by decide)).2 rfl _ (hostsWorld_WriteFile _ _),
   rfl, rfl⟩

/-- What `RemoveEntry` writes has no line left that contains both the domain
and the marker. -/
theorem RemoveEntry_rewritten_clean (content domain : Bytes) :
    (scanLines ([10].intercalate
      ((scanLines content).filter (fun line => !matchesEntry domain line)) ++ [10])).any
      (matchesEntry domain) = false := by
  rw [List.any_eq_false]
  intro x hx
  obtain ⟨r, hr, rfl⟩ := scanLines_mem _ x hx
  have hclean : matchesEntry domain r = false := by
    by_cases hne : (scanLines content).filter (fun line => !matchesEntry domain line) = []
    · rw [hne] at hr
      have e : rawLines ([10].intercalate ([] : List Bytes) ++ [10]) = [[]] := by
        simp [List.intercalate, List.intersperse, rawLines]
      rw [e] at hr
      rw [List.mem_singleton.mp hr]
      exact matchesEntry_nil domain
    · rw [rawLines_intercalate _ hne
        (fun l hl => scanLines_no_lf content l (List.mem_filter.mp hl).1)] at hr
      simpa using (List.mem_filter.mp hr).2
  intro hmatch
  have := matchesEntry_mono domain (dropCR r) r (List.IsPrefix.isInfix (dropCR_initial r)) hmatch
  rw [hclean] at this
  cases this

/-- After `AddEntry` has appended its line for a domain without a line feed,
and when every line fits the scanner's buffer, a scan finds a line that
contains both the domain and the marker. -/
theorem AddEntry_written_found (content domain : Bytes) (hlf : 10 ∉ domain)
    (hfit : ∀ l ∈ rawLines (content ++ entryLine domain ++ [10]), l.length < MaxScanTokenSize) :
    (scanLines (content ++ entryLine domain ++ [10])).any (matchesEntry domain) = true := by
  rw [List.any_eq_true, scanLines_of_fit _ hfit]
  obtain ⟨t, ht⟩ := rawLines_appended content (entryLine domain) (entryLine_no_lf domain hlf)
  refine ⟨t ++ entryLine domain, List.mem_map.mpr ⟨t ++ entryLine domain, ht, ?_⟩, ?_⟩
  · exact dropCR_entryLine domain t
  · exact matchesEntry_entryLine domain t

set_option maxRecDepth 8000 in
/-- C12 as stated fails. A file that holds the entry of `myapi.blast` and no
entry for `api.blast` is changed by `RemoveEntry("api.blast")`, which returns
no error. For a domain that contains a line feed the second `AddEntry`
appends the entry once more; so it does on a file with a line that does not
fit the scanner's buffer. -/
theorem hosts_idempotence_violations :
    (entryLine (goBytes "api.blast")
        ∉ rawLines (goBytes "127.0.0.1 myapi.blast # blast-proxy\n") ∧
      (RemoveEntry "linux" (hostsWorld (goBytes "127.0.0.1 myapi.blast # blast-proxy\n"))
        (goBytes "api.blast")).1 = none ∧
      hostsContent (hostsWorld (goBytes "127.0.0.1 myapi.blast # blast-proxy\n"))
        = .ok (goBytes "127.0.0.1 myapi.blast # blast-proxy\n") ∧
      hostsContent (RemoveEntry "linux"
        (hostsWorld (goBytes "127.0.0.1 myapi.blast # blast-proxy\n"))
        (goBytes "api.blast")).2 = .ok (goBytes "\n")) ∧
    (hostsContent (AddEntry "linux" (hostsWorld (goBytes "127.0.0.1 localhost\n"))
        (goBytes "a\nb")).2
        = .ok (goBytes "127.0.0.1 localhost\n127.0.0.1 a\nb # blast-proxy\n") ∧
      hostsContent (AddEntry "linux" (AddEntry "linux"
        (hostsWorld (goBytes "127.0.0.1 localhost\n")) (goBytes "a\nb")).2 (goBytes "a\nb")).2
        = .ok (goBytes
          "127.0.0.1 localhost\n127.0.0.1 a\nb # blast-proxy\n127.0.0.1 a\nb # blast-proxy\n")) ∧
    (hostsContent (AddEntry "linux"
        (hostsWorld (List.replicate (2 * MaxScanTokenSize) 97 ++ [10]))
        (goBytes "api.blast")).2
        = .ok (List.replicate (2 * MaxScanTokenSize) 97 ++ [10]
            ++ (entryLine (goBytes "api.blast") ++ [10])) ∧
      hostsContent (AddEntry "linux" (AddEntry "linux"
        (hostsWorld (List.replicate (2 * MaxScanTokenSize) 97 ++ [10]))
        (goBytes "api.blast")).2 (goBytes "api.blast")).2
        = .ok (List.replicate (2 * MaxScanTokenSize) 97 ++ [10]
            ++ (entryLine (goBytes "api.blast") ++ [10])
            ++ (entryLine (goBytes "api.blast") ++ [10]))) := by
  refine ⟨⟨?_, rfl, rfl, rfl⟩, ⟨rfl, rfl⟩, ?_⟩
  · have e : rawLines (goBytes "127.0.0.1 myapi.blast # blast-proxy\n")
        = [goBytes "127.0.0.1 myapi.blast # blast-proxy"] := rfl
    rw [e, List.mem_singleton]
    intro h
    have hlen := congrArg List.length h
    revert hlen
    decide
  · have hlf : 10 ∉ List.replicate (2 * MaxScanTokenSize) 97 := by simp [List.mem_replicate]
    have hlen : MaxScanTokenSize ≤ (List.replicate (2 * MaxScanTokenSize) 97).length := by
      rw [List.length_replicate]
      omega
    have h1 : (scanLines (List.replicate (2 * MaxScanTokenSize) 97 ++ [10])).any
        (matchesEntry (goBytes "api.blast")) = false := by
      rw [scanLines_overlong _ [] hlf hlen]
      rfl
    have h2 : (scanLines (List.replicate (2 * MaxScanTokenSize) 97 ++ [10]
        ++ (entryLine (goBytes "api.blast") ++ [10]))).any
        (matchesEntry (goBytes "api.blast")) = false := by
      have e : List.replicate (2 * MaxScanTokenSize) 97 ++ [10]
          ++ (entryLine (goBytes "api.blast") ++ [10])
          = List.replicate (2 * MaxScanTokenSize) 97
            ++ 10 :: (entryLine (goBytes "api.blast") ++ [10]) := by simp
      rw [e, scanLines_overlong _ _ hlf hlen]
      rfl
    rw [AddEntry_hostsWorld _ _ h1]
    refine ⟨rfl, ?_⟩
    rw [AddEntry_hostsWorld _ _ h2]
    rfl

/-- C12, amended. `RemoveEntry` twice leaves the world that `RemoveEntry` once
leaves, the second call writing nothing and failing only if the first did;
`RemoveEntry` on a file of which no scanned line contains both the domain and
the marker changes nothing and returns no error. For a domain without a line
feed, and when every line of the file with the entry appended fits the
scanner's buffer, `AddEntry` twice leaves the world that `AddEntry` once
leaves, the second call writing nothing and failing only if the first did. -/
theorem hosts_idempotent (goos : String) (w : World) (domain : Bytes) :
    ((RemoveEntry goos (RemoveEntry goos w domain).2 domain).2 = (RemoveEntry goos w domain).2 ∧
      ((RemoveEntry goos w domain).1 = none →
        (RemoveEntry goos (RemoveEntry goos w domain).2 domain).1 = none)) ∧
    (∀ content, w.fs.ReadFile (GetHostsPath goos) = .ok content →
      (scanLines content).any (matchesEntry domain) = false →
      RemoveEntry goos w domain = (none, w)) ∧
    (10 ∉ domain →
      (∀ content, w.fs.ReadFile (GetHostsPath goos) = .ok content →
        ∀ l ∈ rawLines (content ++ entryLine domain ++ [10]), l.length < MaxScanTokenSize) →
      (AddEntry goos (AddEntry goos w domain).2 domain).2 = (AddEntry goos w domain).2 ∧
      ((AddEntry goos w domain).1 = none →
        (AddEntry goos (AddEntry goos w domain).2 domain).1 = none)) := by
  refine ⟨?_, ?_, ?_⟩
  · rcases RemoveEntry_cases goos w domain with h | ⟨content, fs1, hr, _, hw, heq⟩
    · constructor
      · rw [h]
        exact h
      · intro hnone
        rw [h]
        exact hnone
    · have hread1 := FS.ReadFile_WriteFile _ _ _ _ _ hr hw
      have hsecond := RemoveEntry_absent goos { w with fs := fs1 } domain _ hread1
        (RemoveEntry_rewritten_clean content domain)
      rw [heq]
      exact ⟨by rw [hsecond], fun _ => by rw [hsecond]⟩
  · intro content hread hany
    exact RemoveEntry_absent goos w domain content hread hany
  · intro hlf hfit
    rcases AddEntry_cases goos w domain with h | ⟨content, fs1, hr, _, hw, heq⟩
    · constructor
      · rw [h]
        exact h
      · intro hnone
        rw [h]
        exact hnone
    · have hread1 := FS.ReadFile_WriteFile _ _ _ _ _ hr hw
      have hfound : (scanLines (content ++ (entryLine domain ++ [10]))).any
          (matchesEntry domain) = true := by
        rw [← List.append_assoc]
        exact AddEntry_written_found content domain hlf (hfit content hr)
      have hsecond := AddEntry_present goos { w with fs := fs1 } domain _ hread1 hfound
      rw [heq]
      exact ⟨by rw [hsecond], fun _ => by rw [hsecond]⟩

set_option maxRecDepth 8000 in
/-- C12 amended, at a concrete file: a second `AddEntry("api.blast")` and a
second `RemoveEntry("api.blast")` change nothing. -/
theorem hosts_idempotent_witness :
    10 ∉ goBytes "api.blast" ∧
    (AddEntry "linux" (AddEntry "linux" (hostsWorld (goBytes "127.0.0.1 localhost\n"))
      (goBytes "api.blast")).2 (goBytes "api.blast")).2
      = (AddEntry "linux" (hostsWorld (goBytes "127.0.0.1 localhost\n"))
          (goBytes "api.blast")).2 ∧
    hostsContent (AddEntry "linux" (hostsWorld (goBytes "127.0.0.1 localhost\n"))
      (goBytes "api.blast")).2
      = .ok (goBytes "127.0.0.1 localhost\n127.0.0.1 api.blast # blast-proxy\n") ∧
    (RemoveEntry "linux" (RemoveEntry "linux"
      (hostsWorld (goBytes "127.0.0.1 localhost\n127.0.0.1 api.blast # blast-proxy\n"))
      (goBytes "api.blast")).2 (goBytes "api.blast")).2
      = (RemoveEntry "linux"
          (hostsWorld (goBytes "127.0.0.1 localhost\n127.0.0.1 api.blast # blast-proxy\n"))
          (goBytes "api.blast")).2 ∧
    hostsContent (RemoveEntry "linux"
      (hostsWorld (goBytes "127.0.0.1 localhost\n127.0.0.1 api.blast # blast-proxy\n"))
      (goBytes "api.blast")).2 = .ok (goBytes "127.0.0.1 localhost\n") :=
  ⟨by decide,
   ((hosts_idempotent "linux" (hostsWorld (goBytes "127.0.0.1 localhost\n"))
      (goBytes "api.blast")).2.2 (by decide)
      (fun content hread l hl => by
        have hc : content = goBytes "127.0.0.1 localhost\n" := by
          have h0 : (hostsWorld (goBytes "127.0.0.1 localhost\n")).fs.ReadFile
              (GetHostsPath "linux") = .ok (goBytes "127.0.0.1 localhost\n") := rfl
          rw [h0] at hread
          simp only [Except.ok.injEq] at hread
          exact hread.symm
        subst hc
        have e : rawLines (goBytes "127.0.0.1 localhost\n" ++ entryLine (goBytes "api.blast")
            ++ [10])
            = [goBytes "127.0.0.1 localhost", goBytes "127.0.0.1 api.blast # blast-proxy"] :=
          rfl
        rw [e] at hl
        simp only [List.mem_cons, List.mem_singleton, List.mem_nil_iff, or_false] at hl
        rcases hl with h | h <;> subst h <;> decide)).1,
   rfl,
   (hosts_idempotent "linux"
      (hostsWorld (goBytes "127.0.0.1 localhost\n127.0.0.1 api.blast # blast-proxy\n"))
      (goBytes "api.blast")).1.1,
   rfl⟩

end Blast
